import Mathlib

/-!
# Website_HCE_BosoNovaNight: the two page scripts

A shallow embedding of `floquet-visual.js` (the Floquet helix drawn on a 2D canvas) and of
`script.js` (the three.js cylinder viewer with drag-to-rotate), and the properties of the two
scripts stated in the specification.

Numbers.  JavaScript numbers are IEEE-754 doubles, and the scripts are embedded twice.

* The embedding in exact arithmetic (`Floquet`, `Viewer`) reads every arithmetic operation as
  the exact one.  The Floquet script, which calls `Math.cos` and uses `Math.PI`, is embedded
  over an arbitrary ordered field `α` with a floor function, together with a record `JSMath α`
  holding `Math.cos` and `Math.PI`; the cylinder viewer is embedded over `ℚ`.  It carries the
  properties that do not depend on how results are rounded: what a handler touches and leaves
  alone, the geometry of the rings, the bound on the dot, a single `+=`.
* The embedding in double arithmetic (`Floquet.IEEE`, `Viewer.IEEE`) rounds the result of every
  operation and every decimal literal to the nearest double (`Binary64.fl`), doubles being
  rational numbers.  It carries the properties about values accumulated over many frames or
  many mouse moves, where the rounding decides whether an exact equality holds.

Pixel sizes (`canvas.width`, `clientWidth`, ...) are natural numbers and the frame counter `t` is
a natural number, as it starts at `0` and is only ever incremented by `1`.
-/

namespace Floquet

/-- The part of the global `Math` object that `floquet-visual.js` uses. -/
structure JSMath (α : Type) where
  /-- The function `Math.cos`. -/
  cos : α → α
  /-- The constant `Math.PI`. -/
  PI : α

/-- The canvas element: its bitmap size (`width`, `height`) and its CSS box size
(`clientWidth`, `clientHeight`), the latter maintained by the browser's layout. -/
structure Canvas where
  width : ℕ
  height : ℕ
  clientWidth : ℕ
  clientHeight : ℕ
deriving DecidableEq, Repr

/-- Drawing commands issued on the 2D context by `draw`. -/
inductive DrawOp (α : Type) where
  /-- The call `ctx.clearRect(x, y, w, h)`. -/
  | clearRect (x y w h : α)
  /-- A stroked `ctx.ellipse(cx, cy, rx, ry, rotation, startAngle, endAngle)` with the ring
  stroke style. -/
  | ellipse (cx cy rx ry rotation startAngle endAngle : α)
  /-- A filled `ctx.arc(x, y, r, startAngle, endAngle)` with the dot fill style. -/
  | arc (x y r startAngle endAngle : α)
deriving DecidableEq, Repr

/-- The page as seen by `floquet-visual.js`: the element `document.getElementById('floquetCanvas')`
returns (if any), the event listeners registered on `window`, the number of
`requestAnimationFrame` calls made, the drawing commands issued, and the closure variable `t`. -/
structure Page (α : Type) where
  canvas : Option Canvas
  windowListeners : List String
  frameRequests : ℕ
  drawn : List (DrawOp α)
  t : ℕ
deriving DecidableEq, Repr

variable {α : Type} [LinearOrderedField α] [FloorRing α]

/-- Truncation towards zero of a number to an integer. -/
def trunc (x : α) : ℤ := if 0 ≤ x then ⌊x⌋ else ⌈x⌉

/-- The JavaScript remainder `a % b` on finite numbers with `b ≠ 0`: the result has the sign of
the dividend, `a - b * trunc (a / b)`.  (The script only uses it with `b = numReplicas = 5`.) -/
def jsRem (a b : α) : α := a - b * (trunc (a / b) : α)

/-- The constant `numReplicas` of `draw`. -/
def numReplicas : ℕ := 5

/-- The local `centreX = width / 2`. -/
def centreX (width : ℕ) : α := (width : α) / 2

/-- The local `centreY = height / 2`. -/
def centreY (height : ℕ) : α := (height : α) / 2

/-- The local `radiusX = Math.min(width, height) * 0.25`. -/
def radiusX (width height : ℕ) : α := min (width : α) (height : α) * 0.25

/-- The local `radiusY = radiusX * 0.5`. -/
def radiusY (width height : ℕ) : α := radiusX width height * 0.5

/-- The local `spacing = radiusY * 1.5`. -/
def spacing (width height : ℕ) : α := radiusY width height * 1.5

/-- The height `y = centreY + (i - (numReplicas - 1) / 2) * spacing` of ring `i` in the loop of
`draw`, for a ring count `n` (the script has `n = numReplicas`). -/
def ringY (n width height i : ℕ) : α :=
  centreY height + ((i : α) - ((n : α) - 1) / 2) * spacing width height

/-- The loop of `draw` over `i = 0 .. n - 1`: one stroked ellipse per ring. -/
def rings (M : JSMath α) (n width height : ℕ) : List (DrawOp α) :=
  (List.range n).map fun i =>
    DrawOp.ellipse (centreX width) (ringY n width height i) (radiusX width height)
      (radiusY width height) 0 0 (2 * M.PI)

/-- The local `progress = t * 0.02`. -/
def progress (t : ℕ) : α := (t : α) * 0.02

/-- The local `angle = 2 * Math.PI * progress`. -/
def angle (M : JSMath α) (t : ℕ) : α := 2 * M.PI * progress t

/-- The local `yOffset = spacing * (progress % numReplicas - (numReplicas - 1) / 2)`, for a ring
count `n`. -/
def yOffset (n width height t : ℕ) : α :=
  spacing width height * (jsRem (progress t) (n : α) - ((n : α) - 1) / 2)

/-- The dot's `x = centreX + radiusX * Math.cos(angle)`. -/
def dotX (M : JSMath α) (width height t : ℕ) : α :=
  centreX width + radiusX width height * M.cos (angle M t)

/-- The dot's `y = centreY + yOffset`, for a ring count `n`. -/
def dotY (n width height t : ℕ) : α := centreY height + yOffset n width height t

/-- The drawing commands of one call of `draw` on a canvas of the given bitmap size at frame
counter `t`, with ring count `n`. -/
def drawOps (M : JSMath α) (n width height t : ℕ) : List (DrawOp α) :=
  DrawOp.clearRect 0 0 (width : α) (height : α) ::
    (rings M n width height ++
      [DrawOp.arc (dotX M width height t) (dotY n width height t) 6 0 (2 * M.PI)])

/-- The function `resize` of the script: the bitmap size becomes the CSS box size. -/
def resize (c : Canvas) : Canvas :=
  { c with width := c.clientWidth, height := c.clientHeight }

/-- The window `resize` listener acting on the page. -/
def onResize (p : Page α) : Page α := { p with canvas := p.canvas.map resize }

/-- The function `draw` of the script acting on the page: draw the rings and the dot, increment
`t`, request the next animation frame.  (The closure `draw` exists only once the canvas element
was found; on a page without the element there is nothing to run.) -/
def draw (M : JSMath α) (p : Page α) : Page α :=
  match p.canvas with
  | none => p
  | some c =>
    { p with
      drawn := p.drawn ++ drawOps M numReplicas c.width c.height p.t
      t := p.t + 1
      frameRequests := p.frameRequests + 1 }

/-- The `DOMContentLoaded` handler of `floquet-visual.js`. -/
def onDOMContentLoaded (M : JSMath α) (p : Page α) : Page α :=
  match p.canvas with
  | none => p
  | some c =>
    draw M
      { p with
        canvas := some (resize c)
        windowListeners := p.windowListeners ++ ["resize"]
        t := 0 }

/-- A page holding a `300 × 150` canvas laid out at `400 × 300`, before the script has run. -/
def samplePage : Page ℚ :=
  { canvas := some ⟨300, 150, 400, 300⟩, windowListeners := [], frameRequests := 0,
    drawn := [], t := 0 }

end Floquet

namespace Viewer

/-- The Euler angles of a three.js `Object3D.rotation`. -/
structure Euler where
  x : ℚ
  y : ℚ
  z : ℚ
deriving DecidableEq, Repr

/-- The value of a JavaScript division of two pixel counts, which is not finite when the divisor
is `0`. -/
inductive JSNum where
  | finite (q : ℚ)
  | infinity
  | nan
deriving DecidableEq, Repr

/-- The JavaScript quotient `width / height` of two non-negative integers. -/
def jsDiv (width height : ℕ) : JSNum :=
  if height = 0 then (if width = 0 then JSNum.nan else JSNum.infinity)
  else JSNum.finite ((width : ℚ) / (height : ℚ))

/-- The container element: its CSS box size, maintained by the browser's layout, and the
elements appended to it. -/
structure Container where
  clientWidth : ℕ
  clientHeight : ℕ
  children : List String
deriving DecidableEq, Repr

/-- The page as seen by `script.js`: the element `document.getElementById('cylinder-viewer')`
returns (if any), the listeners registered on the container and on `window`, the number of
`requestAnimationFrame` calls and of `renderer.render` calls made, the arguments of the last
`renderer.setSize` call, `camera.aspect`, the objects added to the scene, the rotations of
`scene`, `cylinder` and `ringGroup`, and the closure variables `isDragging` and
`previousMousePosition`.  Geometries, materials, lights and the camera placement, which no
handler modifies after construction, are recorded only through the names of the scene's
children. -/
structure Page where
  container : Option Container
  containerListeners : List String
  windowListeners : List String
  frameRequests : ℕ
  renders : ℕ
  rendererSize : Option (ℕ × ℕ)
  cameraAspect : Option JSNum
  sceneChildren : List String
  sceneRotation : Euler
  cylinderRotation : Euler
  ringGroupRotation : Euler
  isDragging : Bool
  previousMousePosition : ℚ × ℚ
deriving DecidableEq, Repr

/-- The function `animate`: request the next frame, advance the two automatic rotations,
render. -/
def animate (p : Page) : Page :=
  { p with
    frameRequests := p.frameRequests + 1
    cylinderRotation := { p.cylinderRotation with y := p.cylinderRotation.y + 0.003 }
    ringGroupRotation := { p.ringGroupRotation with z := p.ringGroupRotation.z - 0.04 }
    renders := p.renders + 1 }

/-- The window `resize` listener: `renderer.setSize(width, height)` and
`camera.aspect = width / height` with the container's current client size. -/
def onResize (p : Page) : Page :=
  match p.container with
  | none => p
  | some c =>
    { p with
      rendererSize := some (c.clientWidth, c.clientHeight)
      cameraAspect := some (jsDiv c.clientWidth c.clientHeight) }

/-- The container `mousedown` listener. -/
def onMouseDown (clientX clientY : ℚ) (p : Page) : Page :=
  { p with isDragging := true, previousMousePosition := (clientX, clientY) }

/-- The constant `rotationSpeed` of the `mousemove` listener. -/
def rotationSpeed : ℚ := 0.005

/-- The container `mousemove` listener. -/
def onMouseMove (clientX clientY : ℚ) (p : Page) : Page :=
  if !p.isDragging then p
  else
    let deltaX := clientX - p.previousMousePosition.1
    let deltaY := clientY - p.previousMousePosition.2
    { p with
      sceneRotation :=
        { p.sceneRotation with
          y := p.sceneRotation.y + deltaX * rotationSpeed
          x := p.sceneRotation.x + deltaY * rotationSpeed }
      previousMousePosition := (clientX, clientY) }

/-- The window `mouseup` listener. -/
def onMouseUp (p : Page) : Page := { p with isDragging := false }

/-- The `DOMContentLoaded` handler of `script.js`. -/
def onDOMContentLoaded (p : Page) : Page :=
  match p.container with
  | none => p
  | some c =>
    let built : Page :=
      { p with
        cameraAspect := some (jsDiv c.clientWidth c.clientHeight)
        rendererSize := some (c.clientWidth, c.clientHeight)
        container := some { c with children := c.children ++ ["canvas"] }
        sceneChildren := ["cylinder", "ringGroup", "ambient", "directional"]
        sceneRotation := ⟨0, 0, 0⟩
        cylinderRotation := ⟨0, 0, 0⟩
        ringGroupRotation := ⟨0, 0, 0⟩ }
    let animated := animate built
    { animated with
      windowListeners := animated.windowListeners ++ ["resize", "mouseup"]
      containerListeners := animated.containerListeners ++ ["mousedown", "mousemove"]
      isDragging := false
      previousMousePosition := (0, 0) }

/-- What can happen to a mounted viewer: the browser runs the requested animation frame, lays
the container out at a new size, fires `resize` on the window, or delivers a mouse event. -/
inductive Event where
  | frame
  | layout (clientWidth clientHeight : ℕ)
  | resize
  | mousedown (clientX clientY : ℚ)
  | mousemove (clientX clientY : ℚ)
  | mouseup
deriving DecidableEq, Repr

/-- The effect of one event: the listener registered for it runs. -/
def step (p : Page) : Event → Page
  | Event.frame => animate p
  | Event.layout w h =>
    { p with container := p.container.map fun c => { c with clientWidth := w, clientHeight := h } }
  | Event.resize => onResize p
  | Event.mousedown x y => onMouseDown x y p
  | Event.mousemove x y => onMouseMove x y p
  | Event.mouseup => onMouseUp p

/-- The effect of a sequence of events, in order. -/
def run (p : Page) (evs : List Event) : Page := evs.foldl step p

/-- The number of animation frames in a sequence of events. -/
def frames (evs : List Event) : ℕ := evs.count Event.frame

/-- An event that is a `mousedown` or a `mouseup`. -/
def Event.isButton : Event → Bool
  | Event.mousedown _ _ => true
  | Event.mouseup => true
  | _ => false

/-- An event that is a `mousedown`. -/
def Event.isMouseDown : Event → Bool
  | Event.mousedown _ _ => true
  | _ => false

/-- An event delivered by the mouse. -/
def Event.isPointer : Event → Bool
  | Event.mousedown _ _ => true
  | Event.mousemove _ _ => true
  | Event.mouseup => true
  | _ => false

/-- The part of the page that the mouse listeners read and write: `scene.rotation`,
`isDragging` and `previousMousePosition`. -/
def pointerState (p : Page) : Euler × Bool × (ℚ × ℚ) :=
  (p.sceneRotation, p.isDragging, p.previousMousePosition)

/-- A page holding an empty `800 × 600` container, before the script has run. -/
def samplePage : Page :=
  { container := some ⟨800, 600, []⟩, containerListeners := [], windowListeners := [],
    frameRequests := 0, renders := 0, rendererSize := none, cameraAspect := none,
    sceneChildren := [], sceneRotation := ⟨0, 0, 0⟩, cylinderRotation := ⟨0, 0, 0⟩,
    ringGroupRotation := ⟨0, 0, 0⟩, isDragging := false, previousMousePosition := (0, 0) }

end Viewer

/-! ## Double-precision arithmetic -/

namespace Binary64

/-- The power `2 ^ e` of two, for an integer exponent. -/
def pow2 (e : ℤ) : ℚ :=
  if 0 ≤ e then ((2 ^ e.toNat : ℕ) : ℚ) else 1 / ((2 ^ (-e).toNat : ℕ) : ℚ)

/-- The number of halvings, at most `fuel`, that bring `n` below `2`. -/
def halvings : ℕ → ℕ → ℕ
  | 0, _ => 0
  | fuel + 1, n => if n < 2 then 0 else halvings fuel (n / 2) + 1

/-- The integer part of the binary logarithm of a positive natural number. -/
def log2 (n : ℕ) : ℕ := halvings n n

/-- The binary exponent of a non-zero number: the `e` with `2 ^ e ≤ |q| < 2 ^ (e + 1)`. -/
def expOf (q : ℚ) : ℤ :=
  if pow2 ((log2 q.num.natAbs : ℤ) - (log2 q.den : ℤ)) ≤ |q| then
    (log2 q.num.natAbs : ℤ) - (log2 q.den : ℤ)
  else (log2 q.num.natAbs : ℤ) - (log2 q.den : ℤ) - 1

/-- Rounding to the nearest integer, a tie going to the even one. -/
def roundEven (x : ℚ) : ℤ :=
  if x - ⌊x⌋ < 1 / 2 then ⌊x⌋
  else if 1 / 2 < x - ⌊x⌋ then ⌊x⌋ + 1
  else if ⌊x⌋ % 2 = 0 then ⌊x⌋ else ⌊x⌋ + 1

/-- The spacing of the doubles around a non-zero number: `2 ^ (e - 52)` for a number of binary
exponent `e` (a significand of `53` bits), and `2 ^ (-1074)` in the subnormal range. -/
def ulp (q : ℚ) : ℚ := pow2 (max (expOf q) (-1022) - 52)

/-- The double nearest to a number: round to nearest, ties to even.  Overflow to `Infinity`,
which needs a magnitude of `2 ^ 1024`, is not represented: the numbers of the two scripts
(pixel coordinates, angles, frame counts) stay far below it. -/
def fl (q : ℚ) : ℚ := if q = 0 then 0 else (roundEven (q / ulp q) : ℚ) * ulp q

/-- The JavaScript sum `a + b` of two doubles. -/
def add (a b : ℚ) : ℚ := fl (a + b)

/-- The JavaScript difference `a - b` of two doubles. -/
def sub (a b : ℚ) : ℚ := fl (a - b)

/-- The JavaScript product `a * b` of two doubles. -/
def mul (a b : ℚ) : ℚ := fl (a * b)

/-- The JavaScript quotient `a / b` of two doubles, `b ≠ 0`. -/
def div (a b : ℚ) : ℚ := fl (a / b)

/-- The JavaScript remainder `a % b` of two doubles, `b ≠ 0`: it has the sign of the dividend
and is exact, the remainder of two doubles being a double. -/
def rem (a b : ℚ) : ℚ := Floquet.jsRem a b

/-- The double `Math.PI`. -/
def PI : ℚ := 884279719003555 / 281474976710656

end Binary64

namespace Floquet.IEEE

open Binary64

/-- The local `centreX = width / 2`, in double arithmetic. -/
def centreX (width : ℕ) : ℚ := div width 2

/-- The local `centreY = height / 2`, in double arithmetic. -/
def centreY (height : ℕ) : ℚ := div height 2

/-- The local `radiusX = Math.min(width, height) * 0.25`, in double arithmetic. -/
def radiusX (width height : ℕ) : ℚ := mul (min (width : ℚ) (height : ℚ)) (fl 0.25)

/-- The local `radiusY = radiusX * 0.5`, in double arithmetic. -/
def radiusY (width height : ℕ) : ℚ := mul (radiusX width height) (fl 0.5)

/-- The local `spacing = radiusY * 1.5`, in double arithmetic. -/
def spacing (width height : ℕ) : ℚ := mul (radiusY width height) (fl 1.5)

/-- The subexpression `(numReplicas - 1) / 2` of `draw`, in double arithmetic. -/
def middle : ℚ := div (sub numReplicas 1) 2

/-- The height `y = centreY + (i - (numReplicas - 1) / 2) * spacing` of ring `i` in the loop of
`draw`, in double arithmetic. -/
def ringY (width height i : ℕ) : ℚ :=
  add (centreY height) (mul (sub i middle) (spacing width height))

/-- The local `progress = t * 0.02`, in double arithmetic.  (The frame counter `t` is a whole
number, and a double as long as it is at most `2 ^ 53`, which takes millions of years of
frames to exceed.) -/
def progress (t : ℕ) : ℚ := mul t (fl 0.02)

/-- The local `angle = 2 * Math.PI * progress`, in double arithmetic. -/
def angle (t : ℕ) : ℚ := mul (mul 2 PI) (progress t)

/-- The local `yOffset = spacing * (progress % numReplicas - (numReplicas - 1) / 2)`, in double
arithmetic. -/
def yOffset (width height t : ℕ) : ℚ :=
  mul (spacing width height) (sub (rem (progress t) numReplicas) middle)

/-- The dot's `x = centreX + radiusX * Math.cos(angle)`, in double arithmetic, `Math.cos` being
a function from doubles to doubles. -/
def dotX (cos : ℚ → ℚ) (width height t : ℕ) : ℚ :=
  add (centreX width) (mul (radiusX width height) (cos (angle t)))

/-- The dot's `y = centreY + yOffset`, in double arithmetic. -/
def dotY (width height t : ℕ) : ℚ := add (centreY height) (yOffset width height t)

end Floquet.IEEE

namespace Viewer.IEEE

open Binary64

/-- The function `animate`, in double arithmetic: request the next frame, advance the two
automatic rotations, render. -/
def animate (p : Page) : Page :=
  { p with
    frameRequests := p.frameRequests + 1
    cylinderRotation := { p.cylinderRotation with y := add p.cylinderRotation.y (fl 0.003) }
    ringGroupRotation := { p.ringGroupRotation with z := sub p.ringGroupRotation.z (fl 0.04) }
    renders := p.renders + 1 }

/-- The constant `rotationSpeed` of the `mousemove` listener, a double. -/
def rotationSpeed : ℚ := fl 0.005

/-- The container `mousemove` listener, in double arithmetic. -/
def onMouseMove (clientX clientY : ℚ) (p : Page) : Page :=
  if !p.isDragging then p
  else
    let deltaX := sub clientX p.previousMousePosition.1
    let deltaY := sub clientY p.previousMousePosition.2
    { p with
      sceneRotation :=
        { p.sceneRotation with
          y := add p.sceneRotation.y (mul deltaX rotationSpeed)
          x := add p.sceneRotation.x (mul deltaY rotationSpeed) }
      previousMousePosition := (clientX, clientY) }

/-- The `DOMContentLoaded` handler of `script.js`, with `animate` in double arithmetic. -/
def onDOMContentLoaded (p : Page) : Page :=
  match p.container with
  | none => p
  | some c =>
    let built : Page :=
      { p with
        cameraAspect := some (jsDiv c.clientWidth c.clientHeight)
        rendererSize := some (c.clientWidth, c.clientHeight)
        container := some { c with children := c.children ++ ["canvas"] }
        sceneChildren := ["cylinder", "ringGroup", "ambient", "directional"]
        sceneRotation := ⟨0, 0, 0⟩
        cylinderRotation := ⟨0, 0, 0⟩
        ringGroupRotation := ⟨0, 0, 0⟩ }
    let animated := animate built
    { animated with
      windowListeners := animated.windowListeners ++ ["resize", "mouseup"]
      containerListeners := animated.containerListeners ++ ["mousedown", "mousemove"]
      isDragging := false
      previousMousePosition := (0, 0) }

/-- The effect of one event, in double arithmetic: the listener registered for it runs. -/
def step (p : Page) : Event → Page
  | Event.frame => animate p
  | Event.layout w h =>
    { p with container := p.container.map fun c => { c with clientWidth := w, clientHeight := h } }
  | Event.resize => onResize p
  | Event.mousedown x y => onMouseDown x y p
  | Event.mousemove x y => onMouseMove x y p
  | Event.mouseup => onMouseUp p

/-- The effect of a sequence of events, in order, in double arithmetic. -/
def run (p : Page) (evs : List Event) : Page := evs.foldl step p

/-- One rounded step of the cylinder's rotation: `y + 0.003` in double arithmetic. -/
def cylinderStep (y : ℚ) : ℚ := add y (fl 0.003)

/-- One rounded step of the ring's rotation: `z - 0.04` in double arithmetic. -/
def ringStep (z : ℚ) : ℚ := sub z (fl 0.04)

end Viewer.IEEE

/-! ## Arithmetic of the helix -/

namespace Floquet

variable {α : Type} [LinearOrderedField α]

theorem jsRem_of_nonneg [FloorRing α] (a b : α) (h : 0 ≤ a / b) : jsRem a b = a - b * (⌊a / b⌋ : α) := by
  simp [jsRem, trunc, h]

/-- The remainder modulo `5` of a non-negative number is unchanged by adding `5`. -/
theorem jsRem_add_five [FloorRing α] (a : α) (h : 0 ≤ a) : jsRem (a + 5) 5 = jsRem a 5 := by
  have h1 : (0 : α) ≤ a / 5 := by positivity
  have h2 : (0 : α) ≤ (a + 5) / 5 := by positivity
  rw [jsRem_of_nonneg _ _ h1, jsRem_of_nonneg _ _ h2]
  have : (a + 5) / 5 = a / 5 + 1 := by ring
  rw [this, Int.floor_add_one]
  push_cast
  ring

/-- A natural number below `5` is its own remainder modulo `5`. -/
theorem jsRem_of_lt_five [FloorRing α] (k : ℕ) (hk : k < 5) : jsRem (k : α) 5 = k := by
  have h1 : (0 : α) ≤ (k : α) / 5 := by positivity
  rw [jsRem_of_nonneg _ _ h1]
  have hk5 : (k : α) < 5 := by exact_mod_cast hk
  have hfl : ⌊(k : α) / 5⌋ = 0 := by
    rw [Int.floor_eq_iff]
    constructor
    · simpa using h1
    · rw [div_lt_iff₀ (by norm_num)]
      simpa using hk5
  rw [hfl]
  simp

theorem radiusX_nonneg (width height : ℕ) : (0 : α) ≤ radiusX width height := by
  unfold radiusX
  have hw : (0 : α) ≤ (width : α) := Nat.cast_nonneg width
  have hh : (0 : α) ≤ (height : α) := Nat.cast_nonneg height
  have : (0 : α) ≤ min (width : α) (height : α) := le_min hw hh
  norm_num

theorem rings_length (M : JSMath α) (n width height : ℕ) :
    (rings M n width height).length = n := by
  simp [rings]

theorem rings_getElem? (M : JSMath α) (n width height i : ℕ) (hi : i < n) :
    (rings M n width height)[i]? =
      some (DrawOp.ellipse (centreX width) (ringY n width height i) (radiusX width height)
        (radiusY width height) 0 0 (2 * M.PI)) := by
  simp [rings, List.getElem?_map, List.getElem?_range hi]

end Floquet

/-! ## Traces of the cylinder viewer -/

namespace Viewer

theorem run_nil (p : Page) : run p [] = p := rfl

theorem run_cons (p : Page) (e : Event) (evs : List Event) :
    run p (e :: evs) = run (step p e) evs := rfl

theorem frames_cons (e : Event) (evs : List Event) :
    frames (e :: evs) = frames evs + (if e = Event.frame then 1 else 0) := by
  unfold frames
  rw [List.count_cons]
  by_cases h : e = Event.frame <;> simp [h]

theorem onResize_frame (p : Page) :
    (onResize p).sceneRotation = p.sceneRotation ∧
    (onResize p).cylinderRotation = p.cylinderRotation ∧
    (onResize p).ringGroupRotation = p.ringGroupRotation ∧
    (onResize p).isDragging = p.isDragging ∧
    (onResize p).previousMousePosition = p.previousMousePosition := by
  unfold onResize
  cases p.container <;> simp

theorem onMouseMove_idle (x y : ℚ) (p : Page) (h : p.isDragging = false) :
    onMouseMove x y p = p := by
  simp [onMouseMove, h]

theorem onMouseMove_dragging (x y : ℚ) (p : Page) (h : p.isDragging = true) :
    onMouseMove x y p =
      { p with
        sceneRotation :=
          { p.sceneRotation with
            y := p.sceneRotation.y + (x - p.previousMousePosition.1) * rotationSpeed
            x := p.sceneRotation.x + (y - p.previousMousePosition.2) * rotationSpeed }
        previousMousePosition := (x, y) } := by
  simp [onMouseMove, h]

/-- While no drag is in progress and no `mousedown` arrives, `scene.rotation` stays put. -/
theorem run_idle (evs : List Event) (p : Page) (hd : p.isDragging = false)
    (hev : ∀ e ∈ evs, Event.isMouseDown e = false) :
    (run p evs).sceneRotation = p.sceneRotation ∧ (run p evs).isDragging = false := by
  induction evs generalizing p with
  | nil => exact ⟨rfl, hd⟩
  | cons e evs ih =>
    have hrest : ∀ e' ∈ evs, Event.isMouseDown e' = false :=
      fun e' he' => hev e' (List.mem_cons_of_mem _ he')
    have he : Event.isMouseDown e = false := hev e (List.mem_cons_self _ _)
    have hstep : (step p e).sceneRotation = p.sceneRotation ∧ (step p e).isDragging = false := by
      cases e with
      | frame => simp [step, animate, hd]
      | layout w h => simp [step, hd]
      | resize =>
        have hr := onResize_frame p
        simp [step, hr.1, hr.2.2.2.1, hd]
      | mousedown x y => simp [Event.isMouseDown] at he
      | mousemove x y => simp [step, onMouseMove_idle x y p hd, hd]
      | mouseup => simp [step, onMouseUp]
    rw [run_cons, (ih (step p e) hstep.2 hrest).1, hstep.1]
    exact ⟨rfl, (ih (step p e) hstep.2 hrest).2⟩

theorem pointerState_eq_iff (p q : Page) :
    pointerState p = pointerState q ↔
      p.sceneRotation = q.sceneRotation ∧ p.isDragging = q.isDragging ∧
        p.previousMousePosition = q.previousMousePosition := by
  simp [pointerState, Prod.ext_iff]

end Viewer

/-! ## Double-precision arithmetic: basic facts -/

namespace Binary64

theorem pow2_eq_zpow (e : ℤ) : pow2 e = (2 : ℚ) ^ e := by
  unfold pow2
  split
  · rename_i h
    obtain ⟨n, rfl⟩ : ∃ n : ℕ, e = (n : ℤ) := ⟨e.toNat, by omega⟩
    simp
  · rename_i h
    obtain ⟨n, rfl⟩ : ∃ n : ℕ, e = -(n : ℤ) := ⟨(-e).toNat, by omega⟩
    simp

theorem halvings_spec : ∀ (fuel n : ℕ), 0 < n → n ≤ fuel →
    2 ^ halvings fuel n ≤ n ∧ n < 2 ^ (halvings fuel n + 1)
  | 0, n, hn, hle => by omega
  | fuel + 1, n, hn, hle => by
    unfold halvings
    split
    · rename_i h
      simp
      omega
    · rename_i h
      have h2 : 2 ≤ n := by omega
      have ih := halvings_spec fuel (n / 2) (Nat.div_pos h2 (by norm_num)) (by omega)
      have hd := Nat.div_add_mod n 2
      have hm : n % 2 < 2 := Nat.mod_lt n (by norm_num)
      constructor
      · rw [pow_succ]
        omega
      · rw [pow_succ]
        omega

theorem log2_spec (n : ℕ) (hn : 0 < n) : 2 ^ log2 n ≤ n ∧ n < 2 ^ (log2 n + 1) :=
  halvings_spec n n hn (le_refl n)

theorem abs_eq_natAbs_div_den (q : ℚ) : |q| = (q.num.natAbs : ℚ) / (q.den : ℚ) := by
  have hd : (0 : ℚ) < (q.den : ℚ) := by exact_mod_cast q.den_pos
  conv_lhs => rw [← Rat.num_div_den q]
  rw [abs_div, abs_of_pos hd, Nat.cast_natAbs, Int.cast_abs]

/-- The binary exponent brackets the magnitude: `2 ^ e ≤ |q| < 2 ^ (e + 1)`. -/
theorem expOf_spec (q : ℚ) (hq : q ≠ 0) :
    pow2 (expOf q) ≤ |q| ∧ |q| < pow2 (expOf q + 1) := by
  have hd : (0 : ℚ) < (q.den : ℚ) := by exact_mod_cast q.den_pos
  have hn0 : 0 < q.num.natAbs := Int.natAbs_pos.2 (Rat.num_ne_zero.2 hq)
  obtain ⟨ha1, ha2⟩ := log2_spec q.num.natAbs hn0
  obtain ⟨hb1, hb2⟩ := log2_spec q.den q.den_pos
  have ha1' : (2 : ℚ) ^ (log2 q.num.natAbs) ≤ (q.num.natAbs : ℚ) := by exact_mod_cast ha1
  have ha2' : (q.num.natAbs : ℚ) < (2 : ℚ) ^ (log2 q.num.natAbs + 1) := by exact_mod_cast ha2
  have hb1' : (2 : ℚ) ^ (log2 q.den) ≤ (q.den : ℚ) := by exact_mod_cast hb1
  have hb2' : (q.den : ℚ) < (2 : ℚ) ^ (log2 q.den + 1) := by exact_mod_cast hb2
  have hpa : (0 : ℚ) < (2 : ℚ) ^ (log2 q.num.natAbs) := by positivity
  have hpb : (0 : ℚ) < (2 : ℚ) ^ (log2 q.den) := by positivity
  have habs := abs_eq_natAbs_div_den q
  have hz : ∀ k : ℤ, pow2 ((log2 q.num.natAbs : ℤ) - (log2 q.den : ℤ) + k)
      = (2 : ℚ) ^ (log2 q.num.natAbs) / (2 : ℚ) ^ (log2 q.den) * (2 : ℚ) ^ k := by
    intro k
    rw [pow2_eq_zpow, zpow_add₀ (by norm_num), zpow_sub₀ (by norm_num), zpow_natCast,
      zpow_natCast]
  have hz0 := hz 0
  have hz1 := hz 1
  have hzm := hz (-1)
  simp only [add_zero, zpow_zero, mul_one, zpow_one] at hz0 hz1
  rw [show (log2 q.num.natAbs : ℤ) - (log2 q.den : ℤ) + -1
    = (log2 q.num.natAbs : ℤ) - (log2 q.den : ℤ) - 1 by ring] at hzm
  -- upper and lower bounds on the magnitude
  have hup : |q| < (2 : ℚ) ^ (log2 q.num.natAbs) / (2 : ℚ) ^ (log2 q.den) * 2 := by
    rw [habs, div_lt_iff₀ hd]
    calc (q.num.natAbs : ℚ) < (2 : ℚ) ^ (log2 q.num.natAbs + 1) := ha2'
      _ = (2 : ℚ) ^ (log2 q.num.natAbs) / (2 : ℚ) ^ (log2 q.den) * 2
            * (2 : ℚ) ^ (log2 q.den) := by
          field_simp
          ring
      _ ≤ (2 : ℚ) ^ (log2 q.num.natAbs) / (2 : ℚ) ^ (log2 q.den) * 2 * (q.den : ℚ) := by
          apply mul_le_mul_of_nonneg_left hb1'
          positivity
  have hlow : (2 : ℚ) ^ (log2 q.num.natAbs) / (2 : ℚ) ^ (log2 q.den) * (2 : ℚ) ^ (-1 : ℤ)
      ≤ |q| := by
    rw [habs, le_div_iff₀ hd]
    calc (2 : ℚ) ^ (log2 q.num.natAbs) / (2 : ℚ) ^ (log2 q.den) * (2 : ℚ) ^ (-1 : ℤ)
          * (q.den : ℚ)
        ≤ (2 : ℚ) ^ (log2 q.num.natAbs) / (2 : ℚ) ^ (log2 q.den) * (2 : ℚ) ^ (-1 : ℤ)
          * (2 : ℚ) ^ (log2 q.den + 1) := by
          apply mul_le_mul_of_nonneg_left (le_of_lt hb2')
          positivity
      _ = (2 : ℚ) ^ (log2 q.num.natAbs) := by
          rw [pow_succ]
          field_simp
      _ ≤ (q.num.natAbs : ℚ) := ha1'
  unfold expOf
  split
  · rename_i h
    refine ⟨h, ?_⟩
    rw [hz1]
    exact hup
  · rename_i h
    push_neg at h
    refine ⟨?_, ?_⟩
    · rw [hzm]
      exact hlow
    · rw [sub_add_cancel]
      exact h

/-- The binary exponent is determined by the bracket `2 ^ e ≤ |q| < 2 ^ (e + 1)`. -/
theorem expOf_eq (q : ℚ) (e : ℤ) (h1 : pow2 e ≤ |q|) (h2 : |q| < pow2 (e + 1)) :
    expOf q = e := by
  have hq : q ≠ 0 := by
    intro h0
    rw [h0, abs_zero, pow2_eq_zpow] at h1
    have : (0 : ℚ) < (2 : ℚ) ^ e := by positivity
    linarith
  obtain ⟨s1, s2⟩ := expOf_spec q hq
  rw [pow2_eq_zpow] at h1 h2 s1 s2
  have hlt1 : (2 : ℚ) ^ e < (2 : ℚ) ^ (expOf q + 1) := lt_of_le_of_lt h1 s2
  have hlt2 : (2 : ℚ) ^ (expOf q) < (2 : ℚ) ^ (e + 1) := lt_of_le_of_lt s1 h2
  have k1 := (zpow_lt_zpow_iff_right₀ (by norm_num : (1 : ℚ) < 2)).1 hlt1
  have k2 := (zpow_lt_zpow_iff_right₀ (by norm_num : (1 : ℚ) < 2)).1 hlt2
  omega

theorem pow2_pos (e : ℤ) : 0 < pow2 e := by
  rw [pow2_eq_zpow]
  positivity

theorem ulp_pos (q : ℚ) : 0 < ulp q := pow2_pos _

/-- A number less than half a unit above an integer rounds to that integer. -/
theorem roundEven_eq (x : ℚ) (m : ℤ) (h1 : (m : ℚ) ≤ x) (h2 : x < (m : ℚ) + 1 / 2) :
    roundEven x = m := by
  have hfl : ⌊x⌋ = m := by
    rw [Int.floor_eq_iff]
    exact ⟨h1, by linarith⟩
  unfold roundEven
  rw [hfl, if_pos (by linarith)]

/-- Rounding to an integer moves a number by at most one half. -/
theorem roundEven_error (x : ℚ) : |(roundEven x : ℚ) - x| ≤ 1 / 2 := by
  have h1 := Int.floor_le x
  have h2 := Int.lt_floor_add_one x
  unfold roundEven
  split
  · rw [abs_le]
    constructor <;> linarith
  · split
    · push_cast
      rw [abs_le]
      constructor <;> linarith
    · split
      · rw [abs_le]
        constructor <;> linarith
      · push_cast
        rw [abs_le]
        constructor <;> linarith

/-- The double nearest to a number is within half a unit in the last place of it. -/
theorem fl_error (q : ℚ) : |fl q - q| ≤ ulp q / 2 := by
  have hu := ulp_pos q
  unfold fl
  split
  · rename_i h
    rw [h, sub_zero, abs_zero]
    exact le_of_lt (half_pos (ulp_pos 0))
  · have h := roundEven_error (q / ulp q)
    have heq : (roundEven (q / ulp q) : ℚ) * ulp q - q
        = ((roundEven (q / ulp q) : ℚ) - q / ulp q) * ulp q := by
      field_simp
    rw [heq, abs_mul, abs_of_pos hu]
    calc |(roundEven (q / ulp q) : ℚ) - q / ulp q| * ulp q ≤ 1 / 2 * ulp q :=
          mul_le_mul_of_nonneg_right h (le_of_lt hu)
      _ = ulp q / 2 := by ring

/-- A positive number of binary exponent `e`, not in the subnormal range, that lies less than
half a unit in the last place above `m * 2 ^ (e - 52)` rounds to `m * 2 ^ (e - 52)`. -/
theorem fl_eq_of_near (q : ℚ) (e m : ℤ) (he : -1022 ≤ e) (hq : 0 < q) (h1 : pow2 e ≤ q)
    (h2 : q < pow2 (e + 1)) (h3 : (m : ℚ) * pow2 (e - 52) ≤ q)
    (h4 : q < ((m : ℚ) + 1 / 2) * pow2 (e - 52)) : fl q = (m : ℚ) * pow2 (e - 52) := by
  have habs : |q| = q := abs_of_pos hq
  have hexp : expOf q = e := expOf_eq q e (by rw [habs]; exact h1) (by rw [habs]; exact h2)
  have hulp : ulp q = pow2 (e - 52) := by
    unfold ulp
    rw [hexp, max_eq_left he]
  have hu := pow2_pos (e - 52)
  unfold fl
  rw [if_neg (ne_of_gt hq), hulp]
  have hr : roundEven (q / pow2 (e - 52)) = m := by
    apply roundEven_eq
    · rw [le_div_iff₀ hu]
      exact h3
    · rw [div_lt_iff₀ hu]
      exact h4
  rw [hr]

theorem fl_two_hundredths : fl 0.02 = 5764607523034235 / 288230376151711744 := by decide!

/-- Fifty times a whole number below `2 ^ 53`, times the double `0.02`, rounds to that whole
number. -/
theorem fl_fifty_mul (k : ℕ) (hk : k < 2 ^ 53) : fl (((50 * k : ℕ) : ℚ) * fl 0.02) = k := by
  rcases Nat.eq_zero_or_pos k with h0 | hpos
  · subst h0
    simp [fl]
  obtain ⟨l1, l2⟩ := log2_spec k hpos
  have hle : log2 k ≤ 52 := by
    by_contra hcon
    push_neg at hcon
    have : 2 ^ 53 ≤ 2 ^ log2 k := Nat.pow_le_pow_right (by norm_num) hcon
    omega
  obtain ⟨d, hd⟩ : ∃ d : ℕ, log2 k + d = 52 := ⟨52 - log2 k, by omega⟩
  have l1' : (2 : ℚ) ^ (log2 k) ≤ (k : ℚ) := by exact_mod_cast l1
  have l2' : (k : ℚ) + 1 ≤ (2 : ℚ) ^ (log2 k + 1) := by exact_mod_cast l2
  have hP : (0 : ℚ) < (2 : ℚ) ^ (log2 k) := by positivity
  have hD : (0 : ℚ) < (2 : ℚ) ^ d := by positivity
  have hPD : (2 : ℚ) ^ (log2 k) * (2 : ℚ) ^ d = 2 ^ 52 := by
    rw [← pow_add, hd]
  have hkq : (0 : ℚ) < (k : ℚ) := by exact_mod_cast hpos
  have hq : ((50 * k : ℕ) : ℚ) * fl 0.02 = (k : ℚ) + 3 * (k : ℚ) / 2 ^ 57 := by
    rw [fl_two_hundredths]
    push_cast
    ring
  have hsmall : 3 * (k : ℚ) / 2 ^ 57 < 1 := by
    have : (k : ℚ) < 2 ^ 53 := by exact_mod_cast hk
    rw [div_lt_iff₀ (by positivity)]
    linarith
  have hulp : pow2 ((log2 k : ℤ) - 52) = 1 / (2 : ℚ) ^ d := by
    rw [pow2_eq_zpow, zpow_sub₀ (by norm_num), zpow_natCast]
    rw [show (52 : ℤ) = ((52 : ℕ) : ℤ) by norm_num, zpow_natCast, ← hPD]
    field_simp
  have hres := fl_eq_of_near ((k : ℚ) + 3 * (k : ℚ) / 2 ^ 57) (log2 k : ℤ)
    ((k * 2 ^ d : ℕ) : ℤ) (by omega) (by positivity)
    (by
      rw [pow2_eq_zpow, zpow_natCast]
      have : (0 : ℚ) ≤ 3 * (k : ℚ) / 2 ^ 57 := by positivity
      linarith)
    (by
      rw [pow2_eq_zpow]
      have : ((log2 k : ℤ) + 1) = ((log2 k + 1 : ℕ) : ℤ) := by push_cast; ring
      rw [this, zpow_natCast]
      linarith)
    (by
      rw [hulp]
      push_cast
      have : (k : ℚ) * 2 ^ d * (1 / 2 ^ d) = k := by field_simp
      rw [this]
      have : (0 : ℚ) ≤ 3 * (k : ℚ) / 2 ^ 57 := by positivity
      linarith)
    (by
      rw [hulp]
      push_cast
      have h1 : ((k : ℚ) * 2 ^ d + 1 / 2) * (1 / 2 ^ d) = k + 1 / (2 * 2 ^ d) := by
        field_simp
        ring
      rw [h1]
      have h2 : 3 * (k : ℚ) / 2 ^ 57 < 1 / (2 * 2 ^ d) := by
        rw [div_lt_div_iff₀ (by positivity) (by positivity)]
        have hk2 : (k : ℚ) < 2 * 2 ^ (log2 k) := by
          have : (2 : ℚ) ^ (log2 k + 1) = 2 * 2 ^ (log2 k) := by ring
          linarith
        calc 3 * (k : ℚ) * (2 * 2 ^ d) < 3 * (2 * 2 ^ (log2 k)) * (2 * 2 ^ d) := by
              apply mul_lt_mul_of_pos_right _ (by positivity)
              linarith
          _ = 12 * ((2 : ℚ) ^ (log2 k) * 2 ^ d) := by ring
          _ = 12 * 2 ^ 52 := by rw [hPD]
          _ ≤ 1 * 2 ^ 57 := by norm_num
      linarith)
  rw [hq, hres, hulp]
  push_cast
  field_simp

theorem roundEven_nonneg (x : ℚ) (h : 0 ≤ x) : 0 ≤ roundEven x := by
  have hf : 0 ≤ ⌊x⌋ := Int.floor_nonneg.2 h
  unfold roundEven
  split
  · exact hf
  · split
    · omega
    · split
      · exact hf
      · omega

theorem roundEven_nonpos (x : ℚ) (h : x ≤ 0) : roundEven x ≤ 0 := by
  have hf : ⌊x⌋ ≤ 0 := Int.floor_nonpos h
  have hle := Int.floor_le x
  have hneg : 0 < x - ⌊x⌋ → ⌊x⌋ + 1 ≤ 0 := by
    intro hpos
    have hlt : (⌊x⌋ : ℚ) < 0 := by linarith
    have : ⌊x⌋ < 0 := by exact_mod_cast hlt
    omega
  unfold roundEven
  split
  · exact hf
  · rename_i h1
    push_neg at h1
    have hpos : 0 < x - ⌊x⌋ := by linarith
    split
    · exact hneg hpos
    · split
      · exact hf
      · exact hneg hpos

/-- Rounding a non-negative number gives a non-negative double. -/
theorem fl_nonneg (q : ℚ) (h : 0 ≤ q) : 0 ≤ fl q := by
  unfold fl
  split
  · exact le_refl 0
  · have hx : 0 ≤ q / ulp q := div_nonneg h (le_of_lt (ulp_pos q))
    have hr : (0 : ℚ) ≤ (roundEven (q / ulp q) : ℚ) := by
      exact_mod_cast roundEven_nonneg _ hx
    exact mul_nonneg hr (le_of_lt (ulp_pos q))

/-- Rounding a non-positive number gives a non-positive double. -/
theorem fl_nonpos (q : ℚ) (h : q ≤ 0) : fl q ≤ 0 := by
  unfold fl
  split
  · exact le_refl 0
  · have hx : q / ulp q ≤ 0 := div_nonpos_of_nonpos_of_nonneg h (le_of_lt (ulp_pos q))
    have hr : (roundEven (q / ulp q) : ℚ) ≤ 0 := by
      exact_mod_cast roundEven_nonpos _ hx
    exact mul_nonpos_of_nonpos_of_nonneg hr (le_of_lt (ulp_pos q))

/-- Outside the subnormal range the double nearest to a number is within a relative error of
`2 ^ (-53)` of it. -/
theorem fl_rel_error (q : ℚ) (hq : pow2 (-1022) ≤ |q|) : |fl q - q| ≤ |q| / 2 ^ 53 := by
  have hq0 : q ≠ 0 := by
    intro h0
    rw [h0, abs_zero] at hq
    have := pow2_pos (-1022)
    linarith
  obtain ⟨s1, s2⟩ := expOf_spec q hq0
  have hexp : -1022 ≤ expOf q := by
    have hlt : pow2 (-1022) < pow2 (expOf q + 1) := lt_of_le_of_lt hq s2
    rw [pow2_eq_zpow, pow2_eq_zpow] at hlt
    have := (zpow_lt_zpow_iff_right₀ (by norm_num : (1 : ℚ) < 2)).1 hlt
    omega
  have hulp : ulp q = pow2 (expOf q) / 2 ^ 52 := by
    unfold ulp
    rw [max_eq_left hexp, pow2_eq_zpow, pow2_eq_zpow, zpow_sub₀ (by norm_num)]
    norm_num
  calc |fl q - q| ≤ ulp q / 2 := fl_error q
    _ = pow2 (expOf q) / 2 ^ 53 := by rw [hulp]; ring
    _ ≤ |q| / 2 ^ 53 := by
        apply div_le_div_of_nonneg_right s1
        positivity

/-- One rounded addition of `c` to a value that has the sign of `c` and is within
`n ^ 2 * |c| / 2 ^ 53` of `n * c` gives a value that has the sign of `c` and is within
`(n + 1) ^ 2 * |c| / 2 ^ 53` of `(n + 1) * c`. -/
theorem add_step_error (c y : ℚ) (n : ℕ) (hc : pow2 (-1022) ≤ |c|) (hn : n ≤ 2 ^ 53)
    (hs : 0 ≤ y * c) (hE : |y - n * c| ≤ (n : ℚ) ^ 2 * |c| / 2 ^ 53) :
    0 ≤ fl (y + c) * c ∧
      |fl (y + c) - ((n + 1 : ℕ) : ℚ) * c| ≤ ((n + 1 : ℕ) : ℚ) ^ 2 * |c| / 2 ^ 53 := by
  have hp := pow2_pos (-1022)
  have hc0 : c ≠ 0 := by
    intro h0
    rw [h0, abs_zero] at hc
    linarith
  have hN : (n : ℚ) ≤ 2 ^ 53 := by exact_mod_cast hn
  have hN0 : (0 : ℚ) ≤ (n : ℚ) := Nat.cast_nonneg n
  have ha : 0 ≤ |c| := abs_nonneg c
  -- the sum has the sign of `c` and is at least as large in magnitude
  have hsign : 0 ≤ fl (y + c) * c ∧ |c| ≤ |y + c| := by
    rcases lt_or_gt_of_ne hc0 with hneg | hpos
    · have hy : y ≤ 0 := by
        by_contra hcon
        push_neg at hcon
        have : y * c < 0 := mul_neg_of_pos_of_neg hcon hneg
        linarith
      have hq : y + c ≤ 0 := by linarith
      refine ⟨mul_nonneg_of_nonpos_of_nonpos (fl_nonpos _ hq) (le_of_lt hneg), ?_⟩
      rw [abs_of_neg hneg, abs_of_nonpos hq]
      linarith
    · have hy : 0 ≤ y := by
        by_contra hcon
        push_neg at hcon
        have : y * c < 0 := mul_neg_of_neg_of_pos hcon hpos
        linarith
      have hq : 0 ≤ y + c := by linarith
      refine ⟨mul_nonneg (fl_nonneg _ hq) (le_of_lt hpos), ?_⟩
      rw [abs_of_pos hpos, abs_of_nonneg hq]
      linarith
  refine ⟨hsign.1, ?_⟩
  have hrel := fl_rel_error (y + c) (le_trans hc hsign.2)
  have hy : |y| ≤ (n : ℚ) * |c| + (n : ℚ) ^ 2 * |c| / 2 ^ 53 := by
    have h1 : |y| ≤ |y - n * c| + |(n : ℚ) * c| := by
      have := abs_add (y - n * c) ((n : ℚ) * c)
      rwa [sub_add_cancel] at this
    rw [abs_mul, abs_of_nonneg hN0] at h1
    linarith
  have hq : |y + c| ≤ |y| + |c| := abs_add y c
  have hsplit : |fl (y + c) - ((n + 1 : ℕ) : ℚ) * c|
      ≤ |fl (y + c) - (y + c)| + |y - n * c| := by
    have := abs_add (fl (y + c) - (y + c)) (y - n * c)
    have heq : fl (y + c) - (y + c) + (y - n * c) = fl (y + c) - ((n + 1 : ℕ) : ℚ) * c := by
      push_cast
      ring
    rwa [heq] at this
  have hNN : (n : ℚ) ^ 2 / 2 ^ 53 ≤ (n : ℚ) := by
    rw [div_le_iff₀ (by positivity)]
    nlinarith
  have hbound : |fl (y + c) - (y + c)| + |y - n * c|
      ≤ ((n : ℚ) * |c| + (n : ℚ) ^ 2 * |c| / 2 ^ 53 + |c|) / 2 ^ 53
        + (n : ℚ) ^ 2 * |c| / 2 ^ 53 := by
    have : |y + c| / 2 ^ 53
        ≤ ((n : ℚ) * |c| + (n : ℚ) ^ 2 * |c| / 2 ^ 53 + |c|) / 2 ^ 53 := by
      apply div_le_div_of_nonneg_right _ (by positivity)
      linarith
    linarith
  have hfinal : ((n : ℚ) * |c| + (n : ℚ) ^ 2 * |c| / 2 ^ 53 + |c|) / 2 ^ 53
        + (n : ℚ) ^ 2 * |c| / 2 ^ 53
      ≤ ((n + 1 : ℕ) : ℚ) ^ 2 * |c| / 2 ^ 53 := by
    have h1 : (n : ℚ) ^ 2 * |c| / 2 ^ 53 ≤ (n : ℚ) * |c| := by
      have := mul_le_mul_of_nonneg_right hNN ha
      calc (n : ℚ) ^ 2 * |c| / 2 ^ 53 = (n : ℚ) ^ 2 / 2 ^ 53 * |c| := by ring
        _ ≤ (n : ℚ) * |c| := this
    have h2 : ((n : ℚ) * |c| + (n : ℚ) ^ 2 * |c| / 2 ^ 53 + |c|) / 2 ^ 53
        ≤ ((n : ℚ) * |c| + (n : ℚ) * |c| + |c|) / 2 ^ 53 := by
      apply div_le_div_of_nonneg_right _ (by positivity)
      linarith
    have h3 : ((n : ℚ) * |c| + (n : ℚ) * |c| + |c|) / 2 ^ 53 + (n : ℚ) ^ 2 * |c| / 2 ^ 53
        = ((n + 1 : ℕ) : ℚ) ^ 2 * |c| / 2 ^ 53 := by
      push_cast
      ring
    linarith
  linarith

/-- Adding `c` in double arithmetic `n ≤ 2 ^ 53` times, from `0`, gives `n * c` up to an error
of at most `n ^ 2 * |c| / 2 ^ 53`. -/
theorem iterate_add_error (c : ℚ) (hc : pow2 (-1022) ≤ |c|) (n : ℕ) (hn : n ≤ 2 ^ 53) :
    0 ≤ (fun y => fl (y + c))^[n] 0 * c ∧
      |(fun y => fl (y + c))^[n] 0 - (n : ℚ) * c| ≤ (n : ℚ) ^ 2 * |c| / 2 ^ 53 := by
  induction n with
  | zero => simp
  | succ n ih =>
    obtain ⟨h1, h2⟩ := ih (by omega)
    rw [Function.iterate_succ_apply']
    exact add_step_error c _ n hc (by omega) h1 h2

/-- The rounded product does not depend on the order of its factors. -/
theorem mul_swap (a b : ℚ) : mul a b = mul b a := by
  unfold mul
  rw [Rat.mul_comm]

/-- The doubles that the decimal literals of the two scripts denote. -/
theorem fl_literals :
    fl 0.003 = 3458764513820541 / 1152921504606846976 ∧
    fl 0.04 = 5764607523034235 / 144115188075855872 ∧
    fl 0.005 = 5764607523034235 / 1152921504606846976 ∧
    fl 0.02 = 5764607523034235 / 288230376151711744 ∧
    fl 0.25 = 1 / 4 ∧ fl 0.5 = 1 / 2 ∧ fl 1.5 = 3 / 2 := by
  decide!

end Binary64

namespace Floquet.IEEE

open Binary64

theorem progress_nonneg (t : ℕ) : 0 ≤ progress t := by
  unfold progress mul
  apply fl_nonneg
  have h1 : (0 : ℚ) ≤ (t : ℚ) := Nat.cast_nonneg t
  have h2 : (0 : ℚ) ≤ fl 0.02 := fl_nonneg _ (by norm_num)
  exact mul_nonneg h1 h2

theorem middle_eq : middle = 2 := by decide!

theorem numReplicas_cast : ((numReplicas : ℕ) : ℚ) = 5 := by
  norm_num [numReplicas]

/-- At a multiple of fifty the rounded product `t * 0.02` is the whole number `t / 50`. -/
theorem progress_fifty_mul (k : ℕ) (hk : k < 2 ^ 53) : progress (50 * k) = k := by
  unfold progress mul
  exact fl_fifty_mul k hk

end Floquet.IEEE

/-! ## Traces of the cylinder viewer in double arithmetic -/

namespace Viewer.IEEE

open Binary64

theorem run_nil_rounded (p : Page) : run p [] = p := rfl

theorem run_cons_rounded (p : Page) (e : Event) (evs : List Event) :
    run p (e :: evs) = run (step p e) evs := rfl

theorem run_append (p : Page) (evs evs' : List Event) :
    run p (evs ++ evs') = run (run p evs) evs' := by
  simp [run, List.foldl_append]

theorem onMouseMove_idle_rounded (x y : ℚ) (p : Page) (h : p.isDragging = false) :
    onMouseMove x y p = p := by
  simp [onMouseMove, h]

theorem onMouseMove_dragging_rounded (x y : ℚ) (p : Page) (h : p.isDragging = true) :
    onMouseMove x y p =
      { p with
        sceneRotation :=
          { p.sceneRotation with
            y := add p.sceneRotation.y (mul (sub x p.previousMousePosition.1) rotationSpeed)
            x := add p.sceneRotation.x (mul (sub y p.previousMousePosition.2) rotationSpeed) }
        previousMousePosition := (x, y) } := by
  simp [onMouseMove, h]

theorem onMouseMove_auto_rounded (x y : ℚ) (p : Page) :
    (onMouseMove x y p).cylinderRotation = p.cylinderRotation ∧
    (onMouseMove x y p).ringGroupRotation = p.ringGroupRotation ∧
    (onMouseMove x y p).isDragging = p.isDragging := by
  cases h : p.isDragging
  · rw [onMouseMove_idle_rounded x y p h]
    simp [h]
  · rw [onMouseMove_dragging_rounded x y p h]
    simp [h]

/-- The automatic rotations after one event: only an animation frame moves them, by one
rounded step each. -/
theorem step_auto (p : Page) (e : Event) :
    (step p e).cylinderRotation =
      { p.cylinderRotation with
        y := if e = Event.frame then cylinderStep p.cylinderRotation.y
          else p.cylinderRotation.y } ∧
    (step p e).ringGroupRotation =
      { p.ringGroupRotation with
        z := if e = Event.frame then ringStep p.ringGroupRotation.z
          else p.ringGroupRotation.z } := by
  cases e with
  | frame => simp [step, animate, cylinderStep, ringStep]
  | layout w h => simp [step]
  | resize => simp [step, (onResize_frame p).2.1, (onResize_frame p).2.2.1]
  | mousedown x y => simp [step, onMouseDown]
  | mousemove x y =>
    simp [step, (onMouseMove_auto_rounded x y p).1, (onMouseMove_auto_rounded x y p).2.1]
  | mouseup => simp [step, onMouseUp]

/-- Along any trace the cylinder's rotation only moves about `y` and the ring's only about `z`,
by one rounded step per frame. -/
theorem run_auto (evs : List Event) (p : Page) :
    (run p evs).cylinderRotation =
      { p.cylinderRotation with y := cylinderStep^[frames evs] p.cylinderRotation.y } ∧
    (run p evs).ringGroupRotation =
      { p.ringGroupRotation with z := ringStep^[frames evs] p.ringGroupRotation.z } := by
  induction evs generalizing p with
  | nil => simp [run_nil_rounded, frames]
  | cons e evs ih =>
    rw [run_cons_rounded, (ih (step p e)).1, (ih (step p e)).2, frames_cons, (step_auto p e).1,
      (step_auto p e).2]
    by_cases h : e = Event.frame
    · simp [h, Function.iterate_succ_apply]
    · simp [h]

/-- An event that does not come from the mouse leaves the pointer state alone. -/
theorem step_pointerState_of_not_isPointer (p : Page) (e : Event) (h : e.isPointer = false) :
    pointerState (step p e) = pointerState p := by
  cases e with
  | frame => simp [step, animate, pointerState]
  | layout w h => simp [step, pointerState]
  | resize =>
    have hr := onResize_frame p
    simp [step, pointerState, hr.1, hr.2.2.2.1, hr.2.2.2.2]
  | mousedown x y => simp [Event.isPointer] at h
  | mousemove x y => simp [Event.isPointer] at h
  | mouseup => simp [Event.isPointer] at h

/-- The pointer state after an event is determined by the pointer state before it. -/
theorem step_pointerState_congr (p q : Page) (e : Event)
    (h : pointerState p = pointerState q) :
    pointerState (step p e) = pointerState (step q e) := by
  cases hp : e.isPointer
  · rw [step_pointerState_of_not_isPointer p e hp, step_pointerState_of_not_isPointer q e hp, h]
  · obtain ⟨h1, h2, h3⟩ := (pointerState_eq_iff p q).1 h
    cases e with
    | frame => simp [Event.isPointer] at hp
    | layout w h => simp [Event.isPointer] at hp
    | resize => simp [Event.isPointer] at hp
    | mousedown x y => simp [step, onMouseDown, pointerState, h1]
    | mousemove x y =>
      cases hd : p.isDragging
      · have hd2 : q.isDragging = false := by rw [← h2, hd]
        simp only [step]
        rw [onMouseMove_idle_rounded x y p hd, onMouseMove_idle_rounded x y q hd2, h]
      · have hd2 : q.isDragging = true := by rw [← h2, hd]
        simp only [step]
        rw [onMouseMove_dragging_rounded x y p hd, onMouseMove_dragging_rounded x y q hd2]
        simp [pointerState, h1, h2, h3]
    | mouseup => simp [step, onMouseUp, pointerState, h1, h3]

/-- The pointer state after a trace is that after its mouse events alone. -/
theorem run_pointerState_filter (evs : List Event) (p q : Page)
    (h : pointerState p = pointerState q) :
    pointerState (run p evs) = pointerState (run q (evs.filter Event.isPointer)) := by
  induction evs generalizing p q with
  | nil => simpa [run_nil_rounded] using h
  | cons e evs ih =>
    cases hp : e.isPointer
    · rw [List.filter_cons_of_neg (by simp [hp]), run_cons_rounded]
      exact ih _ _ (by rw [step_pointerState_of_not_isPointer p e hp, h])
    · rw [List.filter_cons_of_pos hp, run_cons_rounded, run_cons_rounded]
      exact ih _ _ (step_pointerState_congr p q e h)

/-- A trace without mouse events leaves the pointer state alone. -/
theorem run_pointerState_of_not_isPointer (evs : List Event) (p : Page)
    (hev : ∀ e ∈ evs, Event.isPointer e = false) :
    pointerState (run p evs) = pointerState p := by
  have hfilter : evs.filter Event.isPointer = [] := by
    rw [List.filter_eq_nil_iff]
    intro e he
    simp [hev e he]
  have := run_pointerState_filter evs p p rfl
  rw [hfilter, run_nil_rounded] at this
  exact this

/-- A drag stays in progress as long as no mouse button event arrives. -/
theorem run_isDragging (evs : List Event) (p : Page) (hd : p.isDragging = true)
    (hev : ∀ e ∈ evs, Event.isButton e = false) : (run p evs).isDragging = true := by
  induction evs generalizing p with
  | nil => exact hd
  | cons e evs ih =>
    have hrest : ∀ e' ∈ evs, Event.isButton e' = false :=
      fun e' he' => hev e' (List.mem_cons_of_mem _ he')
    have he : Event.isButton e = false := hev e (List.mem_cons_self _ _)
    rw [run_cons_rounded]
    apply ih _ _ hrest
    cases e with
    | frame => simpa [step, animate] using hd
    | layout w h => simpa [step] using hd
    | resize => rw [show step p Event.resize = onResize p from rfl, (onResize_frame p).2.2.2.1, hd]
    | mousedown x y => simp [Event.isButton] at he
    | mousemove x y =>
      rw [show step p (Event.mousemove x y) = onMouseMove x y p from rfl,
        (onMouseMove_auto_rounded x y p).2.2, hd]
    | mouseup => simp [Event.isButton] at he

/-- The page right after the handler has run on a page that has the container: one frame has
been animated, the scene is not yet rotated, and no drag is in progress. -/
theorem onDOMContentLoaded_mounted (p : Page) (c : Container) (hc : p.container = some c) :
    (onDOMContentLoaded p).cylinderRotation = ⟨0, cylinderStep 0, 0⟩ ∧
    (onDOMContentLoaded p).ringGroupRotation = ⟨0, 0, ringStep 0⟩ ∧
    (onDOMContentLoaded p).sceneRotation = ⟨0, 0, 0⟩ ∧
    (onDOMContentLoaded p).isDragging = false ∧
    (onDOMContentLoaded p).frameRequests = p.frameRequests + 1 := by
  simp [onDOMContentLoaded, hc, animate, cylinderStep, ringStep]

/-- After `n ≤ 2 ^ 53` rounded steps from `0` the cylinder's rotation is `0.003 * n` up to an
error of at most `(n ^ 2 + n) * 0.003 / 2 ^ 52`. -/
theorem cylinderStep_iterate_error (n : ℕ) (hn : n ≤ 2 ^ 53) :
    |cylinderStep^[n] 0 - 0.003 * (n : ℚ)| ≤ ((n : ℚ) ^ 2 + (n : ℚ)) * 0.003 / 2 ^ 52 := by
  have hf : cylinderStep = fun y => fl (y + fl 0.003) := rfl
  have hc : pow2 (-1022) ≤ |fl 0.003| := by decide!
  have h := (iterate_add_error (fl 0.003) hc n hn).2
  rw [← hf] at h
  generalize cylinderStep^[n] 0 = Y at h ⊢
  have hn0 : (0 : ℚ) ≤ (n : ℚ) := Nat.cast_nonneg n
  have hn2 : (0 : ℚ) ≤ (n : ℚ) ^ 2 := by positivity
  have hcv : |fl 0.003| = 3458764513820541 / 1152921504606846976 := by
    rw [fl_literals.1]
    exact abs_of_pos (by norm_num)
  rw [hcv, fl_literals.1, abs_le] at h
  rw [abs_le]
  constructor <;> linarith

/-- After `n ≤ 2 ^ 53` rounded steps from `0` the ring's rotation is `-0.04 * n` up to an error
of at most `(n ^ 2 + n) * 0.04 / 2 ^ 52`. -/
theorem ringStep_iterate_error (n : ℕ) (hn : n ≤ 2 ^ 53) :
    |ringStep^[n] 0 - -0.04 * (n : ℚ)| ≤ ((n : ℚ) ^ 2 + (n : ℚ)) * 0.04 / 2 ^ 52 := by
  have hf : ringStep = fun z => fl (z + -fl 0.04) := by
    funext z
    unfold ringStep sub
    rw [sub_eq_add_neg]
  have hc : pow2 (-1022) ≤ |-fl 0.04| := by decide!
  have h := (iterate_add_error (-fl 0.04) hc n hn).2
  rw [← hf] at h
  generalize ringStep^[n] 0 = Z at h ⊢
  have hn0 : (0 : ℚ) ≤ (n : ℚ) := Nat.cast_nonneg n
  have hn2 : (0 : ℚ) ≤ (n : ℚ) ^ 2 := by positivity
  have hcv : |(-fl 0.04)| = 5764607523034235 / 144115188075855872 := by
    rw [abs_neg, fl_literals.2.1]
    exact abs_of_pos (by norm_num)
  rw [hcv, fl_literals.2.1, abs_le] at h
  rw [abs_le]
  constructor <;> linarith

end Viewer.IEEE

/-! ## The properties of the specification -/

/-- C1: when the element looked up by the `DOMContentLoaded` handler is absent, the handler of
either script leaves its page exactly as it was: nothing appended or resized, no listener
registered, no animation frame requested. -/
theorem absent_element_is_noop {α : Type} [LinearOrderedField α] [FloorRing α]
    (M : Floquet.JSMath α) (p : Floquet.Page α) (q : Viewer.Page)
    (hp : p.canvas = none) (hq : q.container = none) :
    Floquet.onDOMContentLoaded M p = p ∧ Viewer.onDOMContentLoaded q = q := by
  constructor
  · simp [Floquet.onDOMContentLoaded, hp]
  · simp [Viewer.onDOMContentLoaded, hq]

theorem absent_element_is_noop_witness :
    (⟨none, [], 0, [], 0⟩ : Floquet.Page ℝ).canvas = none ∧
    (⟨none, [], [], 0, 0, none, none, [], ⟨0, 0, 0⟩, ⟨0, 0, 0⟩, ⟨0, 0, 0⟩, false, (0, 0)⟩ :
      Viewer.Page).container = none ∧
    Floquet.onDOMContentLoaded (⟨Real.cos, Real.pi⟩ : Floquet.JSMath ℝ) ⟨none, [], 0, [], 0⟩
      = ⟨none, [], 0, [], 0⟩ ∧
    Viewer.onDOMContentLoaded
        ⟨none, [], [], 0, 0, none, none, [], ⟨0, 0, 0⟩, ⟨0, 0, 0⟩, ⟨0, 0, 0⟩, false, (0, 0)⟩
      = ⟨none, [], [], 0, 0, none, none, [], ⟨0, 0, 0⟩, ⟨0, 0, 0⟩, ⟨0, 0, 0⟩, false, (0, 0)⟩ :=
  ⟨rfl, rfl,
    absent_element_is_noop (⟨Real.cos, Real.pi⟩ : Floquet.JSMath ℝ) ⟨none, [], 0, [], 0⟩
      ⟨none, [], [], 0, 0, none, none, [], ⟨0, 0, 0⟩, ⟨0, 0, 0⟩, ⟨0, 0, 0⟩, false, (0, 0)⟩
      rfl rfl⟩

/-- C3: whenever `Math.cos` takes values in `[-1, 1]`, the dot's horizontal position stays
within `radiusX` of `centreX`, for every frame counter and canvas size. -/
theorem dot_x_within_radius {α : Type} [LinearOrderedField α] (M : Floquet.JSMath α)
    (hcos : ∀ a, |M.cos a| ≤ 1)
    (width height t : ℕ) :
    |Floquet.dotX M width height t - Floquet.centreX width| ≤ Floquet.radiusX width height := by
  have hr : (0 : α) ≤ Floquet.radiusX width height := Floquet.radiusX_nonneg width height
  have : Floquet.dotX M width height t - Floquet.centreX width
      = Floquet.radiusX width height * M.cos (Floquet.angle M t) := by
    unfold Floquet.dotX
    ring
  rw [this, abs_mul, abs_of_nonneg hr]
  calc Floquet.radiusX width height * |M.cos (Floquet.angle M t)|
      ≤ Floquet.radiusX width height * 1 := mul_le_mul_of_nonneg_left (hcos _) hr
    _ = Floquet.radiusX width height := mul_one _

theorem dot_x_within_radius_witness :
    (∀ a : ℝ, |Real.cos a| ≤ 1) ∧
    |Floquet.dotX (⟨Real.cos, Real.pi⟩ : Floquet.JSMath ℝ) 400 300 7 - Floquet.centreX 400|
      ≤ Floquet.radiusX 400 300 :=
  ⟨Real.abs_cos_le_one,
    dot_x_within_radius (⟨Real.cos, Real.pi⟩ : Floquet.JSMath ℝ) Real.abs_cos_le_one 400 300 7⟩

/-- C4: while a drag is in progress, a `mousemove` at `(cx, cy)` adds `0.005 * (cx - px)` to
`scene.rotation.y` and `0.005 * (cy - py)` to `scene.rotation.x`, where `(px, py)` is the
recorded pointer position, and records `(cx, cy)`. -/
theorem mousemove_rotates_scene (p : Viewer.Page) (cx cy : ℚ) (hd : p.isDragging = true) :
    (Viewer.onMouseMove cx cy p).sceneRotation.y
      = p.sceneRotation.y + 0.005 * (cx - p.previousMousePosition.1) ∧
    (Viewer.onMouseMove cx cy p).sceneRotation.x
      = p.sceneRotation.x + 0.005 * (cy - p.previousMousePosition.2) ∧
    (Viewer.onMouseMove cx cy p).previousMousePosition = (cx, cy) := by
  rw [Viewer.onMouseMove_dragging cx cy p hd]
  refine ⟨?_, ?_, rfl⟩
  · simp only [Viewer.rotationSpeed]
    ring
  · simp only [Viewer.rotationSpeed]
    ring

/-- C5: after a `mouseup`, no sequence of events without a `mousedown` changes
`scene.rotation`; nor do the `mouseup` and `mousedown` listeners themselves. -/
theorem release_freezes_scene (p : Viewer.Page) (evs : List Viewer.Event)
    (hev : ∀ e ∈ evs, Viewer.Event.isMouseDown e = false) :
    (Viewer.run (Viewer.onMouseUp p) evs).sceneRotation = p.sceneRotation ∧
    (Viewer.onMouseUp p).sceneRotation = p.sceneRotation ∧
    (∀ x y, (Viewer.onMouseDown x y p).sceneRotation = p.sceneRotation) :=
  ⟨(Viewer.run_idle evs (Viewer.onMouseUp p) rfl hev).1, rfl, fun _ _ => rfl⟩

theorem mousemove_rotates_scene_witness :
    (Viewer.onMouseDown 10 20 Viewer.samplePage).isDragging = true ∧
    (Viewer.onMouseMove 14 26 (Viewer.onMouseDown 10 20 Viewer.samplePage)).sceneRotation.y
      = Viewer.samplePage.sceneRotation.y + 0.005 * (14 - 10) ∧
    (Viewer.onMouseMove 14 26 (Viewer.onMouseDown 10 20 Viewer.samplePage)).sceneRotation.x
      = Viewer.samplePage.sceneRotation.x + 0.005 * (26 - 20) ∧
    (Viewer.onMouseMove 14 26 (Viewer.onMouseDown 10 20 Viewer.samplePage)).previousMousePosition
      = (14, 26) :=
  ⟨rfl, mousemove_rotates_scene (Viewer.onMouseDown 10 20 Viewer.samplePage) 14 26 rfl⟩

theorem release_freezes_scene_witness :
    (∀ e ∈ [Viewer.Event.mousemove 3 4, Viewer.Event.frame, Viewer.Event.resize],
      Viewer.Event.isMouseDown e = false) ∧
    (Viewer.run (Viewer.onMouseUp Viewer.samplePage)
        [Viewer.Event.mousemove 3 4, Viewer.Event.frame, Viewer.Event.resize]).sceneRotation
      = Viewer.samplePage.sceneRotation :=
  ⟨by decide,
    (release_freezes_scene Viewer.samplePage
      [Viewer.Event.mousemove 3 4, Viewer.Event.frame, Viewer.Event.resize] (by decide)).1⟩

/-- C6: the `resize` listener of the Floquet script sets the canvas bitmap size to the canvas's
client size and that of the cylinder viewer passes the container's client size to
`renderer.setSize` and sets `camera.aspect` to their quotient; the frame counter, the rotations,
the dragging flag, the recorded pointer position, the listeners and the pending frame requests
are left as they were. -/
theorem resize_matches_client_size {α : Type} (p : Floquet.Page α) (c : Floquet.Canvas)
    (hp : p.canvas = some c) (q : Viewer.Page) (d : Viewer.Container)
    (hq : q.container = some d) :
    ((Floquet.onResize p).canvas
        = some ⟨c.clientWidth, c.clientHeight, c.clientWidth, c.clientHeight⟩ ∧
      (Floquet.onResize p).t = p.t ∧
      (Floquet.onResize p).windowListeners = p.windowListeners ∧
      (Floquet.onResize p).frameRequests = p.frameRequests ∧
      (Floquet.onResize p).drawn = p.drawn) ∧
    ((Viewer.onResize q).rendererSize = some (d.clientWidth, d.clientHeight) ∧
      (Viewer.onResize q).cameraAspect = some (Viewer.jsDiv d.clientWidth d.clientHeight) ∧
      (Viewer.onResize q).sceneRotation = q.sceneRotation ∧
      (Viewer.onResize q).cylinderRotation = q.cylinderRotation ∧
      (Viewer.onResize q).ringGroupRotation = q.ringGroupRotation ∧
      (Viewer.onResize q).isDragging = q.isDragging ∧
      (Viewer.onResize q).previousMousePosition = q.previousMousePosition ∧
      (Viewer.onResize q).container = q.container ∧
      (Viewer.onResize q).containerListeners = q.containerListeners ∧
      (Viewer.onResize q).windowListeners = q.windowListeners ∧
      (Viewer.onResize q).frameRequests = q.frameRequests ∧
      (Viewer.onResize q).renders = q.renders) := by
  constructor
  · simp [Floquet.onResize, Floquet.resize, hp]
  · simp [Viewer.onResize, hq]

theorem resize_matches_client_size_witness :
    Floquet.samplePage.canvas = some ⟨300, 150, 400, 300⟩ ∧
    Viewer.samplePage.container = some ⟨800, 600, []⟩ ∧
    (Floquet.onResize Floquet.samplePage).canvas = some ⟨400, 300, 400, 300⟩ ∧
    (Viewer.onResize Viewer.samplePage).rendererSize = some (800, 600) ∧
    (Viewer.onResize Viewer.samplePage).cameraAspect = some (Viewer.jsDiv 800 600) :=
  ⟨rfl, rfl,
    (resize_matches_client_size Floquet.samplePage ⟨300, 150, 400, 300⟩ rfl Viewer.samplePage
      ⟨800, 600, []⟩ rfl).1.1,
    (resize_matches_client_size Floquet.samplePage ⟨300, 150, 400, 300⟩ rfl Viewer.samplePage
      ⟨800, 600, []⟩ rfl).2.1,
    (resize_matches_client_size Floquet.samplePage ⟨300, 150, 400, 300⟩ rfl Viewer.samplePage
      ⟨800, 600, []⟩ rfl).2.2.1⟩

/-- C2: for every ring count `n ≥ 1` and canvas size, the rings are centred on
`centreY = height / 2`: ring `i` is at height `height / 2 + (i - (n - 1) / 2) * spacing` with
`spacing = min(width, height) * 0.25 * 0.5 * 1.5`, consecutive ring heights differ by exactly
`spacing`, ring `i` and ring `n - 1 - i` are mirror images in `height / 2`, and at every frame
counter `t` the command drawn for ring `i` is the ellipse at height `ringY n _ _ i`, whatever
`t` is. -/
theorem ring_heights_even_and_symmetric {α : Type} [LinearOrderedField α] [FloorRing α]
    (M : Floquet.JSMath α) (n width height : ℕ)
    (hn : 1 ≤ n) :
    (Floquet.centreY height : α) = (height : α) / 2 ∧
    (Floquet.spacing width height : α) = min (width : α) (height : α) * 0.25 * 0.5 * 1.5 ∧
    (∀ i, i < n →
      (Floquet.ringY n width height i : α)
        = (height : α) / 2 + ((i : α) - ((n : α) - 1) / 2) * Floquet.spacing width height) ∧
    (∀ i, i + 1 < n →
      (Floquet.ringY n width height (i + 1) : α) - Floquet.ringY n width height i
        = Floquet.spacing width height) ∧
    (∀ i, i < n →
      (Floquet.ringY n width height i : α) + Floquet.ringY n width height (n - 1 - i)
        = 2 * Floquet.centreY height) ∧
    (∀ i, i < n →
      ((Floquet.ringY n width height i : α) + Floquet.ringY n width height (n - 1 - i)) / 2
        = (height : α) / 2) ∧
    (∀ t i, i < n →
      (Floquet.drawOps M n width height t)[i + 1]? =
        some (Floquet.DrawOp.ellipse (Floquet.centreX width) (Floquet.ringY n width height i)
          (Floquet.radiusX width height) (Floquet.radiusY width height) 0 0 (2 * M.PI))) := by
  have hsym : ∀ i, i < n →
      (Floquet.ringY n width height i : α) + Floquet.ringY n width height (n - 1 - i)
        = 2 * Floquet.centreY height := by
    intro i hi
    have hcast : ((n - 1 - i : ℕ) : α) = (n : α) - 1 - (i : α) := by
      have h1 : i ≤ n - 1 := by omega
      rw [Nat.cast_sub h1, Nat.cast_sub hn]
      norm_num
    unfold Floquet.ringY
    rw [hcast]
    ring
  refine ⟨rfl, rfl, fun i _ => rfl, ?_, hsym, ?_, ?_⟩
  · intro i _
    unfold Floquet.ringY
    push_cast
    ring
  · intro i hi
    rw [hsym i hi]
    unfold Floquet.centreY
    ring
  · intro t i hi
    have hlen : i < (Floquet.rings M n width height).length := by
      rw [Floquet.rings_length]; exact hi
    simp only [Floquet.drawOps, List.getElem?_cons_succ]
    rw [List.getElem?_append_left hlen]
    exact Floquet.rings_getElem? M n width height i hi

theorem ring_heights_even_and_symmetric_witness :
    1 ≤ 5 ∧
    (Floquet.centreY 300 : ℝ) = ((300 : ℕ) : ℝ) / 2 ∧
    (Floquet.ringY 5 400 300 1 : ℝ) - Floquet.ringY 5 400 300 0 = Floquet.spacing 400 300 ∧
    (Floquet.ringY 5 400 300 1 : ℝ) + Floquet.ringY 5 400 300 (5 - 1 - 1)
      = 2 * Floquet.centreY 300 ∧
    ((Floquet.ringY 5 400 300 1 : ℝ) + Floquet.ringY 5 400 300 (5 - 1 - 1)) / 2
      = ((300 : ℕ) : ℝ) / 2 :=
  ⟨by decide,
    (ring_heights_even_and_symmetric (⟨Real.cos, Real.pi⟩ : Floquet.JSMath ℝ) 5 400 300
      (by decide)).1,
    (ring_heights_even_and_symmetric (⟨Real.cos, Real.pi⟩ : Floquet.JSMath ℝ) 5 400 300
      (by decide)).2.2.2.1 0 (by decide),
    (ring_heights_even_and_symmetric (⟨Real.cos, Real.pi⟩ : Floquet.JSMath ℝ) 5 400 300
      (by decide)).2.2.2.2.1 1 (by decide),
    (ring_heights_even_and_symmetric (⟨Real.cos, Real.pi⟩ : Floquet.JSMath ℝ) 5 400 300
      (by decide)).2.2.2.2.2.1 1 (by decide)⟩

/-- C7, as stated, fails in double arithmetic: on a page with the container, after the handler
and five further frames (six calls of `animate`), with mouse events in between,
`cylinder.rotation.y` is neither the double product `0.003 * 6` nor the number `0.003 * 6`
(nor those for `5`), and `ringGroup.rotation.z` is neither the double product `-0.04 * 6` nor
the number `-0.04 * 6`. -/
theorem automatic_rotation_closed_form_fails :
    (Viewer.IEEE.run (Viewer.IEEE.onDOMContentLoaded Viewer.samplePage)
        [Viewer.Event.frame, Viewer.Event.mousedown 1 2, Viewer.Event.frame,
          Viewer.Event.mousemove 5 9, Viewer.Event.frame, Viewer.Event.frame,
          Viewer.Event.mouseup, Viewer.Event.frame]).cylinderRotation.y
      ≠ Binary64.mul (Binary64.fl 0.003) 6 ∧
    (Viewer.IEEE.run (Viewer.IEEE.onDOMContentLoaded Viewer.samplePage)
        [Viewer.Event.frame, Viewer.Event.mousedown 1 2, Viewer.Event.frame,
          Viewer.Event.mousemove 5 9, Viewer.Event.frame, Viewer.Event.frame,
          Viewer.Event.mouseup, Viewer.Event.frame]).cylinderRotation.y
      ≠ 0.003 * 6 ∧
    (Viewer.IEEE.run (Viewer.IEEE.onDOMContentLoaded Viewer.samplePage)
        [Viewer.Event.frame, Viewer.Event.mousedown 1 2, Viewer.Event.frame,
          Viewer.Event.mousemove 5 9, Viewer.Event.frame, Viewer.Event.frame,
          Viewer.Event.mouseup, Viewer.Event.frame]).cylinderRotation.y
      ≠ Binary64.mul (Binary64.fl 0.003) 5 ∧
    (Viewer.IEEE.run (Viewer.IEEE.onDOMContentLoaded Viewer.samplePage)
        [Viewer.Event.frame, Viewer.Event.mousedown 1 2, Viewer.Event.frame,
          Viewer.Event.mousemove 5 9, Viewer.Event.frame, Viewer.Event.frame,
          Viewer.Event.mouseup, Viewer.Event.frame]).cylinderRotation.y
      ≠ 0.003 * 5 ∧
    (Viewer.IEEE.run (Viewer.IEEE.onDOMContentLoaded Viewer.samplePage)
        [Viewer.Event.frame, Viewer.Event.mousedown 1 2, Viewer.Event.frame,
          Viewer.Event.mousemove 5 9, Viewer.Event.frame, Viewer.Event.frame,
          Viewer.Event.mouseup, Viewer.Event.frame]).ringGroupRotation.z
      ≠ Binary64.mul (Binary64.fl (-0.04)) 6 ∧
    (Viewer.IEEE.run (Viewer.IEEE.onDOMContentLoaded Viewer.samplePage)
        [Viewer.Event.frame, Viewer.Event.mousedown 1 2, Viewer.Event.frame,
          Viewer.Event.mousemove 5 9, Viewer.Event.frame, Viewer.Event.frame,
          Viewer.Event.mouseup, Viewer.Event.frame]).ringGroupRotation.z
      ≠ -0.04 * 6 := by
  decide!

/-- C7, amended: one animation frame replaces `cylinder.rotation.y` by the double nearest to
`cylinder.rotation.y + 0.003` and `ringGroup.rotation.z` by the double nearest to
`ringGroup.rotation.z - 0.04`, and changes no other rotation; so on a page that has the
container, after the handler (whose own call of `animate` is the first frame) and any sequence
of events, the two rotations are the results of as many such rounded steps from `0` as frames
were animated, whatever the mouse did, and `scene.rotation` is what the mouse events alone
produce; for `n ≤ 2 ^ 53` frames the two rotations are within `(n ^ 2 + n) * 0.003 / 2 ^ 52` of
`0.003 * n` and within `(n ^ 2 + n) * 0.04 / 2 ^ 52` of `-0.04 * n`; from any page whatsoever, a
sequence of events moves the two automatic rotations by one rounded step for each frame in
it. -/
theorem automatic_rotation_iterates_rounded_steps (p : Viewer.Page) (c : Viewer.Container)
    (hc : p.container = some c) (evs : List Viewer.Event) :
    (∀ q : Viewer.Page,
      (Viewer.IEEE.animate q).cylinderRotation
        = ⟨q.cylinderRotation.x, Binary64.add q.cylinderRotation.y (Binary64.fl 0.003),
            q.cylinderRotation.z⟩ ∧
      (Viewer.IEEE.animate q).ringGroupRotation
        = ⟨q.ringGroupRotation.x, q.ringGroupRotation.y,
            Binary64.sub q.ringGroupRotation.z (Binary64.fl 0.04)⟩ ∧
      (Viewer.IEEE.animate q).sceneRotation = q.sceneRotation) ∧
    (Viewer.IEEE.run (Viewer.IEEE.onDOMContentLoaded p) evs).cylinderRotation
      = ⟨0, Viewer.IEEE.cylinderStep^[Viewer.frames evs + 1] 0, 0⟩ ∧
    (Viewer.IEEE.run (Viewer.IEEE.onDOMContentLoaded p) evs).ringGroupRotation
      = ⟨0, 0, Viewer.IEEE.ringStep^[Viewer.frames evs + 1] 0⟩ ∧
    (Viewer.IEEE.run (Viewer.IEEE.onDOMContentLoaded p) evs).sceneRotation
      = (Viewer.IEEE.run (Viewer.IEEE.onDOMContentLoaded p)
          (evs.filter Viewer.Event.isPointer)).sceneRotation ∧
    (Viewer.frames evs + 1 ≤ 2 ^ 53 →
      |(Viewer.IEEE.run (Viewer.IEEE.onDOMContentLoaded p) evs).cylinderRotation.y
          - 0.003 * ((Viewer.frames evs + 1 : ℕ) : ℚ)|
        ≤ (((Viewer.frames evs + 1 : ℕ) : ℚ) ^ 2 + ((Viewer.frames evs + 1 : ℕ) : ℚ))
            * 0.003 / 2 ^ 52 ∧
      |(Viewer.IEEE.run (Viewer.IEEE.onDOMContentLoaded p) evs).ringGroupRotation.z
          - -0.04 * ((Viewer.frames evs + 1 : ℕ) : ℚ)|
        ≤ (((Viewer.frames evs + 1 : ℕ) : ℚ) ^ 2 + ((Viewer.frames evs + 1 : ℕ) : ℚ))
            * 0.04 / 2 ^ 52) ∧
    (∀ q : Viewer.Page,
      (Viewer.IEEE.run q evs).cylinderRotation
        = ⟨q.cylinderRotation.x, Viewer.IEEE.cylinderStep^[Viewer.frames evs] q.cylinderRotation.y,
            q.cylinderRotation.z⟩ ∧
      (Viewer.IEEE.run q evs).ringGroupRotation
        = ⟨q.ringGroupRotation.x, q.ringGroupRotation.y,
            Viewer.IEEE.ringStep^[Viewer.frames evs] q.ringGroupRotation.z⟩) := by
  obtain ⟨hcyl, hring, -, -, -⟩ := Viewer.IEEE.onDOMContentLoaded_mounted p c hc
  have h1 : (Viewer.IEEE.run (Viewer.IEEE.onDOMContentLoaded p) evs).cylinderRotation
      = ⟨0, Viewer.IEEE.cylinderStep^[Viewer.frames evs + 1] 0, 0⟩ := by
    rw [(Viewer.IEEE.run_auto evs _).1, hcyl, Function.iterate_succ_apply]
  have h2 : (Viewer.IEEE.run (Viewer.IEEE.onDOMContentLoaded p) evs).ringGroupRotation
      = ⟨0, 0, Viewer.IEEE.ringStep^[Viewer.frames evs + 1] 0⟩ := by
    rw [(Viewer.IEEE.run_auto evs _).2, hring, Function.iterate_succ_apply]
  refine ⟨fun q => ⟨rfl, rfl, rfl⟩, h1, h2, ?_, ?_, fun q => Viewer.IEEE.run_auto evs q⟩
  · exact ((Viewer.pointerState_eq_iff _ _).1
      (Viewer.IEEE.run_pointerState_filter evs _ _ rfl)).1
  · intro hn
    rw [h1, h2]
    exact ⟨Viewer.IEEE.cylinderStep_iterate_error _ hn,
      Viewer.IEEE.ringStep_iterate_error _ hn⟩

theorem automatic_rotation_iterates_rounded_steps_witness :
    Viewer.samplePage.container = some ⟨800, 600, []⟩ ∧
    (Viewer.IEEE.run (Viewer.IEEE.onDOMContentLoaded Viewer.samplePage)
        [Viewer.Event.frame, Viewer.Event.mousedown 1 2, Viewer.Event.mousemove 5 9,
          Viewer.Event.frame]).cylinderRotation
      = ⟨0, Viewer.IEEE.cylinderStep^[Viewer.frames
          [Viewer.Event.frame, Viewer.Event.mousedown 1 2, Viewer.Event.mousemove 5 9,
            Viewer.Event.frame] + 1] 0, 0⟩ :=
  ⟨rfl,
    (automatic_rotation_iterates_rounded_steps Viewer.samplePage ⟨800, 600, []⟩ rfl
      [Viewer.Event.frame, Viewer.Event.mousedown 1 2, Viewer.Event.mousemove 5 9,
        Viewer.Event.frame]).2.1⟩

/-- C8, as stated, fails in double arithmetic: on a `400 × 300` canvas the dot's height at
frame `7 + 250` is not its height at frame `7`; and the helix angle at frame `7 + 250`, the
argument of `Math.cos`, is not the angle at frame `7` plus five times `2 * Math.PI`, neither as
a double sum nor as a number. -/
theorem dot_height_not_periodic :
    Floquet.IEEE.dotY 400 300 (7 + 250) ≠ Floquet.IEEE.dotY 400 300 7 ∧
    Floquet.IEEE.angle (7 + 250)
      ≠ Binary64.add (Floquet.IEEE.angle 7) (Binary64.mul 5 (Binary64.mul 2 Binary64.PI)) ∧
    Floquet.IEEE.angle (7 + 250) ≠ Floquet.IEEE.angle 7 + 5 * (2 * Binary64.PI) := by
  decide!

/-- C8, amended: the dot's height at frame `t` is `centreY + spacing * ((0.02 * t mod 5) - 2)`
evaluated in double arithmetic; it is the same `250` frames later at every frame `t` at which
the rounded products satisfy `0.02 * (t + 250) = 0.02 * t + 5`, and that is the case at every
frame `t = 50 * k` that is a multiple of fifty (the frame counter staying within `2 ^ 53`, where
it counts exactly). -/
theorem dot_height_periodic_when_progress_exact (width height t : ℕ)
    (hp : Floquet.IEEE.progress (t + 250) = Floquet.IEEE.progress t + 5) :
    Floquet.IEEE.dotY width height t
      = Binary64.add (Floquet.IEEE.centreY height)
          (Binary64.mul (Floquet.IEEE.spacing width height)
            (Binary64.sub (Binary64.rem (Binary64.mul t (Binary64.fl 0.02)) 5) 2)) ∧
    Floquet.IEEE.dotY width height (t + 250) = Floquet.IEEE.dotY width height t ∧
    (∀ k, 50 * k + 250 ≤ 2 ^ 53 →
      Floquet.IEEE.progress (50 * k + 250) = Floquet.IEEE.progress (50 * k) + 5 ∧
      Floquet.IEEE.dotY width height (50 * k + 250)
        = Floquet.IEEE.dotY width height (50 * k)) := by
  have hperiod : ∀ s : ℕ, Floquet.IEEE.progress (s + 250) = Floquet.IEEE.progress s + 5 →
      Floquet.IEEE.dotY width height (s + 250) = Floquet.IEEE.dotY width height s := by
    intro s hs
    unfold Floquet.IEEE.dotY Floquet.IEEE.yOffset Binary64.rem
    rw [hs, Floquet.IEEE.numReplicas_cast,
      Floquet.jsRem_add_five _ (Floquet.IEEE.progress_nonneg s)]
  refine ⟨?_, hperiod t hp, ?_⟩
  · unfold Floquet.IEEE.dotY Floquet.IEEE.yOffset Floquet.IEEE.progress
    rw [Floquet.IEEE.numReplicas_cast, Floquet.IEEE.middle_eq]
  · intro k hk
    have h1 : Floquet.IEEE.progress (50 * k) = k :=
      Floquet.IEEE.progress_fifty_mul k (by omega)
    have h2 : Floquet.IEEE.progress (50 * (k + 5)) = ((k + 5 : ℕ) : ℚ) :=
      Floquet.IEEE.progress_fifty_mul (k + 5) (by omega)
    have h3 : 50 * k + 250 = 50 * (k + 5) := by ring
    have h4 : Floquet.IEEE.progress (50 * k + 250) = Floquet.IEEE.progress (50 * k) + 5 := by
      rw [h3, h2, h1]
      push_cast
      ring
    exact ⟨h4, hperiod (50 * k) h4⟩

theorem dot_height_periodic_when_progress_exact_witness :
    Floquet.IEEE.progress (50 + 250) = Floquet.IEEE.progress 50 + 5 ∧
    Floquet.IEEE.dotY 400 300 (50 + 250) = Floquet.IEEE.dotY 400 300 50 :=
  ⟨by decide!, (dot_height_periodic_when_progress_exact 400 300 50 (by decide!)).2.1⟩

/-- C9, as stated, fails in double arithmetic: on a `400 × 300` canvas, at frame `257`, where
`0.02 * t mod 5 < 4`, the dot's height fifty frames later is not its height plus `spacing`,
neither as a double sum nor as a number; and at frame `3`, where `0.02 * t mod 5 < 4` too, the
helix angle fifty frames later is not the angle plus `2 * Math.PI`, neither as a double sum nor
as a number. -/
theorem one_turn_not_exactly_one_spacing :
    Binary64.rem (Floquet.IEEE.progress 257) 5 < 4 ∧
    Floquet.IEEE.dotY 400 300 (257 + 50)
      ≠ Binary64.add (Floquet.IEEE.dotY 400 300 257) (Floquet.IEEE.spacing 400 300) ∧
    Floquet.IEEE.dotY 400 300 (257 + 50)
      ≠ Floquet.IEEE.dotY 400 300 257 + Floquet.IEEE.spacing 400 300 ∧
    Binary64.rem (Floquet.IEEE.progress 3) 5 < 4 ∧
    Floquet.IEEE.angle (3 + 50)
      ≠ Binary64.add (Floquet.IEEE.angle 3) (Binary64.mul 2 Binary64.PI) ∧
    Floquet.IEEE.angle (3 + 50) ≠ Floquet.IEEE.angle 3 + 2 * Binary64.PI := by
  decide!

/-- C9, amended: at the frames `t = 50 * k` with `k < 5` the rounded product `0.02 * t` is
exactly `k`, so the helix angle is `2 * Math.PI * k`, `k` whole turns, the dot's horizontal
position is that of this angle, and the dot's height is exactly the height of ring `k`, for
every canvas size, in double arithmetic. -/
theorem whole_turns_reach_ring_heights (cos : ℚ → ℚ) (width height k : ℕ) (hk : k < 5) :
    Floquet.IEEE.progress (50 * k) = (k : ℚ) ∧
    Floquet.IEEE.angle (50 * k) = Binary64.mul (Binary64.mul 2 Binary64.PI) k ∧
    Floquet.IEEE.dotX cos width height (50 * k)
      = Binary64.add (Floquet.IEEE.centreX width)
          (Binary64.mul (Floquet.IEEE.radiusX width height)
            (cos (Binary64.mul (Binary64.mul 2 Binary64.PI) k))) ∧
    Floquet.IEEE.dotY width height (50 * k) = Floquet.IEEE.ringY width height k := by
  have h1 : Floquet.IEEE.progress (50 * k) = k :=
    Floquet.IEEE.progress_fifty_mul k (by omega)
  have hang : Floquet.IEEE.angle (50 * k) = Binary64.mul (Binary64.mul 2 Binary64.PI) k := by
    unfold Floquet.IEEE.angle
    rw [h1]
  refine ⟨h1, hang, ?_, ?_⟩
  · unfold Floquet.IEEE.dotX
    rw [hang]
  · unfold Floquet.IEEE.dotY Floquet.IEEE.yOffset Floquet.IEEE.ringY Binary64.rem
    rw [h1, Floquet.IEEE.numReplicas_cast, Floquet.jsRem_of_lt_five k hk, Binary64.mul_swap]

theorem whole_turns_reach_ring_heights_witness :
    3 < 5 ∧
    Floquet.IEEE.progress (50 * 3) = ((3 : ℕ) : ℚ) ∧
    Floquet.IEEE.dotY 400 300 (50 * 3) = Floquet.IEEE.ringY 400 300 3 :=
  ⟨by decide, (whole_turns_reach_ring_heights (fun _ => 1) 400 300 3 (by decide)).1,
    (whole_turns_reach_ring_heights (fun _ => 1) 400 300 3 (by decide)).2.2.2⟩

/-- C10, as stated, fails in double arithmetic: a drag from `(10, 20)` to `(14, 26)` through
`(30, 5)` and `(-2, 8)` leaves `scene.rotation.y` different from what the direct drag between
the same end points leaves, and different from `0.005 * (14 - 10)`, as a double product and as
a number. -/
theorem drag_depends_on_path :
    (Viewer.IEEE.run (Viewer.onMouseDown 10 20 Viewer.samplePage)
        [Viewer.Event.mousemove 30 5, Viewer.Event.frame, Viewer.Event.mousemove (-2) 8,
          Viewer.Event.mousemove 14 26]).sceneRotation.y
      ≠ (Viewer.IEEE.run (Viewer.onMouseDown 10 20 Viewer.samplePage)
          [Viewer.Event.mousemove 14 26]).sceneRotation.y ∧
    (Viewer.IEEE.run (Viewer.onMouseDown 10 20 Viewer.samplePage)
        [Viewer.Event.mousemove 30 5, Viewer.Event.frame, Viewer.Event.mousemove (-2) 8,
          Viewer.Event.mousemove 14 26]).sceneRotation.y
      ≠ Viewer.samplePage.sceneRotation.y
          + Binary64.mul (Binary64.fl 0.005) (Binary64.sub 14 10) ∧
    (Viewer.IEEE.run (Viewer.onMouseDown 10 20 Viewer.samplePage)
        [Viewer.Event.mousemove 30 5, Viewer.Event.frame, Viewer.Event.mousemove (-2) 8,
          Viewer.Event.mousemove 14 26]).sceneRotation.y
      ≠ Viewer.samplePage.sceneRotation.y + 0.005 * (14 - 10) := by
  decide!

/-- C10, amended: a drag accumulates its rotation move by move in double arithmetic.  During a
drag a `mousemove` at `(x, y)` replaces `scene.rotation.y` by the double nearest to
`scene.rotation.y + (x - px) * 0.005` and `scene.rotation.x` by the double nearest to
`scene.rotation.x + (y - py) * 0.005`, difference and product being rounded, `(px, py)` being
the recorded position, and records `(x, y)`.  After a `mousedown` at `(x0, y0)` and any sequence
of `mousemove`s, animation frames, layouts and resizes ending with a move at `(xk, yk)`, the
rotation is what the moves alone produce, the frames, layouts and resizes in between making no
difference, and `(xk, yk)` is recorded; when that last move is the only one, the total is the
rounded `(xk - x0) * 0.005` added to `scene.rotation.y` and the rounded `(yk - y0) * 0.005`
added to `scene.rotation.x`.  A `mousemove` outside a drag changes nothing. -/
theorem drag_accumulates_rounded_moves (p : Viewer.Page) (x0 y0 xk yk : ℚ)
    (evs : List Viewer.Event) (hev : ∀ e ∈ evs, Viewer.Event.isButton e = false) :
    (∀ (r : Viewer.Page) (x y : ℚ), r.isDragging = true →
      (Viewer.IEEE.onMouseMove x y r).sceneRotation
        = ⟨Binary64.add r.sceneRotation.x
              (Binary64.mul (Binary64.sub y r.previousMousePosition.2) (Binary64.fl 0.005)),
            Binary64.add r.sceneRotation.y
              (Binary64.mul (Binary64.sub x r.previousMousePosition.1) (Binary64.fl 0.005)),
            r.sceneRotation.z⟩ ∧
      (Viewer.IEEE.onMouseMove x y r).previousMousePosition = (x, y)) ∧
    (Viewer.IEEE.run (Viewer.onMouseDown x0 y0 p)
        (evs ++ [Viewer.Event.mousemove xk yk])).sceneRotation
      = (Viewer.IEEE.run (Viewer.onMouseDown x0 y0 p)
          ((evs ++ [Viewer.Event.mousemove xk yk]).filter Viewer.Event.isPointer)).sceneRotation ∧
    (Viewer.IEEE.run (Viewer.onMouseDown x0 y0 p)
        (evs ++ [Viewer.Event.mousemove xk yk])).previousMousePosition = (xk, yk) ∧
    ((∀ e ∈ evs, Viewer.Event.isPointer e = false) →
      (Viewer.IEEE.run (Viewer.onMouseDown x0 y0 p)
          (evs ++ [Viewer.Event.mousemove xk yk])).sceneRotation
        = ⟨Binary64.add p.sceneRotation.x
              (Binary64.mul (Binary64.sub yk y0) (Binary64.fl 0.005)),
            Binary64.add p.sceneRotation.y
              (Binary64.mul (Binary64.sub xk x0) (Binary64.fl 0.005)),
            p.sceneRotation.z⟩) ∧
    (∀ (r : Viewer.Page) (x y : ℚ), r.isDragging = false →
      Viewer.IEEE.onMouseMove x y r = r) := by
  have hmove : ∀ (r : Viewer.Page) (x y : ℚ), r.isDragging = true →
      (Viewer.IEEE.onMouseMove x y r).sceneRotation
        = ⟨Binary64.add r.sceneRotation.x
              (Binary64.mul (Binary64.sub y r.previousMousePosition.2) (Binary64.fl 0.005)),
            Binary64.add r.sceneRotation.y
              (Binary64.mul (Binary64.sub x r.previousMousePosition.1) (Binary64.fl 0.005)),
            r.sceneRotation.z⟩ ∧
      (Viewer.IEEE.onMouseMove x y r).previousMousePosition = (x, y) := by
    intro r x y hr
    rw [Viewer.IEEE.onMouseMove_dragging_rounded x y r hr]
    exact ⟨rfl, rfl⟩
  have hdrag : (Viewer.IEEE.run (Viewer.onMouseDown x0 y0 p) evs).isDragging = true :=
    Viewer.IEEE.run_isDragging evs _ rfl hev
  have hlast : Viewer.IEEE.run (Viewer.onMouseDown x0 y0 p)
      (evs ++ [Viewer.Event.mousemove xk yk])
      = Viewer.IEEE.onMouseMove xk yk (Viewer.IEEE.run (Viewer.onMouseDown x0 y0 p) evs) := by
    rw [Viewer.IEEE.run_append]
    rfl
  refine ⟨hmove, ?_, ?_, ?_, fun r x y hr => Viewer.IEEE.onMouseMove_idle_rounded x y r hr⟩
  · exact ((Viewer.pointerState_eq_iff _ _).1
      (Viewer.IEEE.run_pointerState_filter _ _ _ rfl)).1
  · rw [hlast]
    exact (hmove _ xk yk hdrag).2
  · intro hquiet
    obtain ⟨hrot, -, hprev⟩ := (Viewer.pointerState_eq_iff _ _).1
      (Viewer.IEEE.run_pointerState_of_not_isPointer evs (Viewer.onMouseDown x0 y0 p) hquiet)
    rw [hlast, (hmove _ xk yk hdrag).1, hrot, hprev]
    rfl

theorem drag_accumulates_rounded_moves_witness :
    (∀ e ∈ [Viewer.Event.frame, Viewer.Event.resize, Viewer.Event.frame],
      Viewer.Event.isButton e = false) ∧
    (Viewer.IEEE.run (Viewer.onMouseDown 10 20 Viewer.samplePage)
        ([Viewer.Event.frame, Viewer.Event.resize, Viewer.Event.frame]
          ++ [Viewer.Event.mousemove 14 26])).previousMousePosition = (14, 26) :=
  ⟨by decide,
    (drag_accumulates_rounded_moves Viewer.samplePage 10 20 14 26
      [Viewer.Event.frame, Viewer.Event.resize, Viewer.Event.frame] (by decide)).2.2.1⟩
